import Mathlib

/-!
Verification of the apollo-engine-reporting core: the trace tree builder
(`packages/apollo-engine-reporting/src/treeBuilder.ts`) and the per-request
reporting extension (`EngineReportingExtension`).

Modelling conventions:
* JavaScript strings are Lean `String`s; the dot-joined path keys of the
  builder's node map are produced exactly as in the source (`Array.join('.')`).
* The mutable `Trace.Node` objects are held in an arena (`Builder.arena`,
  a list of `TraceNode` records); a node reference in the source corresponds
  to an arena index.  Index `0` is the `rootNode` created at construction.
* `process.hrtime` deltas are modelled directly as nanosecond counts: every
  clock-reading operation takes a `now : Nat` argument, and
  `durationHrTimeToNanos(process.hrtime(origin))` becomes `now - origin`.
* A thrown `Error` is modelled by returning `(b, Except.error msg)`: the
  builder state component is the state at the moment of the throw.
-/

/-- One segment of a graphql `ResponsePath`: a field name (string) or an
array index (number). -/
inductive PathKey where
  | fieldName (s : String)
  | index (i : Nat)
deriving DecidableEq, Repr

/-- The string form of one path segment, as produced by `Array.join` on the
segments (a number is rendered in decimal). -/
def pathKeyString : PathKey → String
  | .fieldName s => s
  | .index i => toString i

/-- A graphql `ResponsePath` is a reverse-linked chain of segments; we model
it leaf-first: the head is `path.key` and the tail is `path.prev`, with `[]`
standing for the undefined root path. -/
abbrev ResponsePath := List PathKey

/-- `Array.prototype.join('.')`. -/
def joinDot : List String → String
  | [] => ""
  | [s] => s
  | s :: t :: rest => s ++ "." ++ joinDot (t :: rest)

/-- Converts from the linked-list ResponsePath format to a dot-joined string,
as in `responsePathAsString`: the segments in root-first order, joined with
dots. -/
def responsePathAsString (p : ResponsePath) : String :=
  joinDot (p.reverse.map pathKeyString)

/-- The map key of the root: `responsePathAsString(undefined) = ''`. -/
def rootResponsePath : String := responsePathAsString []

/-- A `Trace.Error` protobuf record. -/
structure TraceError where
  message : String
  location : List (Nat × Nat)
  json : String
deriving DecidableEq, Repr

/-- A `Trace.Node` protobuf record.  `child` holds arena indices of the child
nodes in append order; `error` is the attached error sequence.  A fresh
`new Trace.Node()` has no segment identity and empty sequences. -/
structure TraceNode where
  fieldName : Option String := none
  index : Option Nat := none
  type : String := ""
  parentType : String := ""
  startTime : Nat := 0
  endTime : Option Nat := none
  child : List Nat := []
  error : List TraceError := []
deriving DecidableEq, Repr

/-- Replace the element at position `i` by `f` of it (out-of-range is a
no-op), mirroring an in-place mutation of the referenced node. -/
def modifyAt (l : List TraceNode) (i : Nat) (f : TraceNode → TraceNode) : List TraceNode :=
  match l, i with
  | [], _ => []
  | a :: t, 0 => f a :: t
  | a :: t, n + 1 => a :: modifyAt t n f

/-- First-match association lookup, modelling `Map.get` (the map is kept as
an association list with the newest binding first, so `Map.set` is a cons). -/
def alookup (k : String) : List (String × Nat) → Option Nat
  | [] => none
  | (k', v) :: rest => if k' = k then some v else alookup k rest

/-- The `EngineReportingTreeBuilder` state: the optional monotonic origin
`startHrTime`, the terminal `stopped` flag, the node arena (index 0 is the
`rootNode` allocated at construction) and the path-string-keyed node map,
initialised with the root path. -/
structure Builder where
  startHrTime : Option Nat := none
  stopped : Bool := false
  arena : List TraceNode := [{}]
  pathMap : List (String × Nat) := [(rootResponsePath, 0)]
deriving DecidableEq, Repr

/-- A `StateError` is the thrown `Error`'s message. -/
abbrev StateError := String

deriving instance DecidableEq for Except

/-- `startTiming`: records the monotonic origin; throws if called twice or
after `stopTiming`. -/
def startTiming (b : Builder) (now : Nat) : Builder × Except StateError Unit :=
  match b.startHrTime with
  | some _ => (b, .error "startTiming called twice!")
  | none =>
    if b.stopped then (b, .error "startTiming called after stopTiming!")
    else ({ b with startHrTime := some now }, .ok ())

/-- A fresh `new Trace.Node()` with the segment identity set: `index` for a
number key, `fieldName` for a string key. -/
def segNode : PathKey → TraceNode
  | .index i => { index := some i }
  | .fieldName s => { fieldName := some s }

/-- `newNode`: allocates a fresh `Trace.Node` for `path`, records its segment
identity, registers it in the map under the path's string, ensures the parent
node exists (the inlined `ensureParentNode`: reuse the mapped node for
`path.prev`, otherwise create it recursively) and appends the new node to the
parent's child list.  Returns the new node's arena index.  The `[]` case is
unreachable in the source (the root path is in the map from construction, so
`ensureParentNode` never recurses past it); it is mapped to the root node. -/
def newNode (b : Builder) : ResponsePath → Builder × Nat
  | [] => (b, 0)
  | k :: prev =>
    let nid := b.arena.length
    let b1 : Builder := { b with
      arena := b.arena ++ [segNode k],
      pathMap := (responsePathAsString (k :: prev), nid) :: b.pathMap }
    let pr :=
      match alookup (responsePathAsString prev) b1.pathMap with
      | some pid => (b1, pid)
      | none => newNode b1 prev
    ({ pr.1 with
        arena := modifyAt pr.1.arena pr.2 (fun n => { n with child := n.child ++ [nid] }) },
     nid)

/-- `ensureParentNode` for a node whose `path.prev` is `prev`: reuse the
mapped node when present, otherwise create it (recursively). -/
def ensureParentNode (b : Builder) (prev : ResponsePath) : Builder × Nat :=
  match alookup (responsePathAsString prev) b.pathMap with
  | some pid => (b, pid)
  | none => newNode b prev

/-- `willResolveField`: after the lifecycle guards, creates (always) a node
for `info.path`, sets its type, parent type and start offset, and returns the
arena index captured by the end-handle closure. -/
def willResolveField (b : Builder) (path : ResponsePath) (returnType parentType : String)
    (now : Nat) : Builder × Except StateError Nat :=
  match b.startHrTime with
  | none => (b, .error "willResolveField called before startTiming!")
  | some origin =>
    if b.stopped then (b, .error "willResolveField called after stopTiming!")
    else
      let pr := newNode b path
      ({ pr.1 with
          arena := modifyAt pr.1.arena pr.2 (fun n =>
            { n with type := returnType, parentType := parentType,
                     startTime := now - origin }) },
       .ok pr.2)

/-- The closure returned by `willResolveField`: it unconditionally writes the
captured node's end offset — it performs no lifecycle check at all. -/
def fieldEndHandler (b : Builder) (nid : Nat) (now : Nat) : Builder :=
  { b with arena := modifyAt b.arena nid (fun n =>
      { n with endTime := some (now - b.startHrTime.getD 0) }) }

/-- `addError`: after the lifecycle guards, attaches the error to the node
mapped from `path.join('.')` when `path` is present and mapped, and to the
root node otherwise. -/
def addError (b : Builder) (path : Option (List PathKey)) (e : TraceError) :
    Builder × Except StateError Unit :=
  match b.startHrTime with
  | none => (b, .error "addError called before startTiming!")
  | some _ =>
    if b.stopped then (b, .error "addError called after stopTiming!")
    else
      let node : Nat :=
        match path with
        | none => 0
        | some p =>
          match alookup (joinDot (p.map pathKeyString)) b.pathMap with
          | some specificNode => specificNode
          | none => 0
      ({ b with arena := modifyAt b.arena node (fun n => { n with error := n.error ++ [e] }) },
       .ok ())

/-- `stopTiming`: after the lifecycle guards, marks the builder stopped and
returns the total duration and the root node. -/
def stopTiming (b : Builder) (now : Nat) : Builder × Except StateError (Nat × TraceNode) :=
  match b.startHrTime with
  | none => (b, .error "stopTiming called before startTiming!")
  | some origin =>
    if b.stopped then (b, .error "stopTiming called twice!")
    else
      ({ b with stopped := true }, .ok (now - origin, b.arena.getD 0 {}))

/-- The legacy privacy option value (`privateHeaders` / `privateVariables`):
absent, a boolean, or an exception-name list. -/
inductive PrivacyOpt where
  | boolOpt (b : Bool)
  | listOpt (names : List String)
  | notSet
deriving DecidableEq, Repr

/-- The header filter of `requestDidStart`: with a list-valued
`privateHeaders`, the header is skipped when some listed name equals the key
case-insensitively (headers are case-insensitive). -/
def headerRedactedByPolicy (opt : PrivacyOpt) (key : String) : Bool :=
  match opt with
  | .listOpt l => l.any (fun privateHeader => privateHeader.toLower == key.toLower)
  | _ => false

/-- The `switch (key)` of `requestDidStart`: these headers are never
recorded. -/
def alwaysRedactedHeader (key : String) : Bool :=
  key == "authorization" || key == "cookie" || key == "set-cookie"

/-- The HTTP header snapshot built by `requestDidStart`: nothing when
`privateHeaders === true`; otherwise each header entry passes the policy
filter and the fixed `switch`, and is recorded as a singleton
`Trace.HTTP.Values` list. -/
def requestHeadersSnapshot (privateHeaders : PrivacyOpt)
    (headers : List (String × String)) : List (String × List String) :=
  if privateHeaders = .boolOpt true then []
  else
    headers.filterMap (fun kv =>
      if headerRedactedByPolicy privateHeaders kv.1 then none
      else if alwaysRedactedHeader kv.1 then none
      else some (kv.1, [kv.2]))

/-- A JSON-serialisable JavaScript value, plus `circular`, a value on which
`JSON.stringify` throws (a self-referential structure). -/
inductive JSValue where
  | nullV
  | boolV (b : Bool)
  | numV (n : Int)
  | strV (s : String)
  | arrV (elems : List JSValue)
  | objV (fields : List (String × JSValue))
  | circular

/-- JSON string escaping for one character. -/
def jsonEscapeChar (c : Char) : List Char :=
  if c = '"' ∨ c = '\\' then ['\\', c] else [c]

/-- The JSON rendering of a string value (quoted and escaped). -/
def jsonQuote (s : String) : String :=
  "\"" ++ String.mk (s.data.flatMap jsonEscapeChar) ++ "\""

mutual

/-- Modelled from the spec: `JSON.stringify`, which throws (here: `none`) on
a self-referential structure.  Only the properties the claims rely on matter:
a plain string serialises to its quoted form, and serialisation of anything
containing `circular` fails. -/
def stringifyJS : JSValue → Option String
  | .nullV => some "null"
  | .boolV true => some "true"
  | .boolV false => some "false"
  | .numV n => some (toString n)
  | .strV s => some (jsonQuote s)
  | .arrV elems =>
    match stringifyJSList elems with
    | some parts => some ("[" ++ parts ++ "]")
    | none => none
  | .objV fields =>
    match stringifyJSFields fields with
    | some parts => some ("\x7b" ++ parts ++ "\x7d")
    | none => none
  | .circular => none

/-- Comma-joined serialisation of array elements. -/
def stringifyJSList : List JSValue → Option String
  | [] => some ""
  | [v] => stringifyJS v
  | v :: w :: rest =>
    match stringifyJS v, stringifyJSList (w :: rest) with
    | some s, some t => some (s ++ "," ++ t)
    | _, _ => none

/-- Comma-joined serialisation of object fields. -/
def stringifyJSFields : List (String × JSValue) → Option String
  | [] => some ""
  | [(k, v)] =>
    match stringifyJS v with
    | some s => some (jsonQuote k ++ ":" ++ s)
    | none => none
  | (k, v) :: f :: rest =>
    match stringifyJS v, stringifyJSFields (f :: rest) with
    | some s, some t => some (jsonQuote k ++ ":" ++ s ++ "," ++ t)
    | _, _ => none

end

/-- The per-variable redaction test of `requestDidStart`: a list-valued
`privateVariables` containing the name (case-sensitively). -/
def variableRedactedByPolicy (opt : PrivacyOpt) (name : String) : Bool :=
  match opt with
  | .listOpt l => l.contains name
  | _ => false

/-- The sentinel recorded when `JSON.stringify` throws on a variable value
(`JSON.stringify('[Unable to convert value to JSON]')`). -/
def unableToConvert : String := jsonQuote "[Unable to convert value to JSON]"

/-- The variable snapshot (`trace.details.variablesJson`) built by
`requestDidStart`: absent when `privateVariables === true` or when no
variables were supplied; otherwise every variable name is recorded — with an
empty-string value when redacted, with its JSON text when serialisable, and
with the fixed sentinel when `JSON.stringify` throws. -/
def variablesSnapshot (privateVariables : PrivacyOpt)
    (vars : Option (List (String × JSValue))) : Option (List (String × String)) :=
  if privateVariables = .boolOpt true then none
  else
    match vars with
    | none => none
    | some vs =>
      some (vs.map (fun nv =>
        if variableRedactedByPolicy privateVariables nv.1 then (nv.1, "")
        else
          match stringifyJS nv.2 with
          | some s => (nv.1, s)
          | none => (nv.1, unableToConvert)))

/-- A `GraphQLError` as the extension sees it: its message, its derived
source locations (computed by graphql-js from the error's nodes, source and
positions, which this embedding therefore represents by the locations
themselves), its response path (root-first) and its extensions. -/
structure GQLError where
  message : String
  locations : Option (List (Nat × Nat)) := none
  path : Option (List PathKey) := none
  extensions : Option (List (String × String)) := none
deriving DecidableEq, Repr

/-- The runtime shape of a user `rewriteError` callback's return value:
an explicit `null`, a `GraphQLError` instance, or anything else. -/
inductive RewriteResult where
  | nullValue
  | gqlError (e : GQLError)
  | notAnError
deriving DecidableEq, Repr

/-- `GraphQLErrorOrMaskedErrorObject`: either a full `GraphQLError` or the
bare `\x7bmessage: '<masked>'\x7d` object produced by `maskErrorDetails`,
which carries no locations and no path. -/
inductive ReportedError where
  | full (e : GQLError)
  | maskedShape (message : String)
deriving DecidableEq, Repr

/-- The reported error's `message`. -/
def ReportedError.msg : ReportedError → String
  | .full e => e.message
  | .maskedShape m => m

/-- The reported error's `(error.locations || [])`. -/
def ReportedError.locs : ReportedError → List (Nat × Nat)
  | .full e => e.locations.getD []
  | .maskedShape _ => []

/-- The reported error's `error.path` (absent on the masked shape). -/
def ReportedError.errPath : ReportedError → Option (List PathKey)
  | .full e => e.path
  | .maskedShape _ => none

/-- Modelled from the spec: `JSON.stringify(error)` — a serialized
representation of the reported error; no claim relies on its exact
rendering. -/
def reportedJson (r : ReportedError) : String :=
  "\x7b\"message\":" ++ jsonQuote r.msg ++ "\x7d"

/-- The `EngineReportingOptions` fields the claims depend on.  The user
`rewriteError` callback receives a shadow copy of the error, so any mutation
it performs is invisible to the caller — which a pure Lean function models
directly. -/
structure ReportingOptions where
  maskErrorDetails : Bool := false
  rewriteErrorFn : Option (GQLError → RewriteResult) := none
  privateHeaders : PrivacyOpt := .notSet
  privateVariables : PrivacyOpt := .notSet

/-- `EngineReportingExtension.rewriteError`: `maskErrorDetails` wins and
produces the bare masked object; otherwise a configured callback is applied
to the (copy of the) error — `null` drops the error, a non-`GraphQLError`
result falls back to the original error, and a `GraphQLError` result yields
a new error with the rewritten message but the original nodes, source,
positions (hence locations), path and extensions. -/
def rewriteError (opts : ReportingOptions) (err : GQLError) : Option ReportedError :=
  if opts.maskErrorDetails then
    some (.maskedShape "<masked>")
  else
    match opts.rewriteErrorFn with
    | some f =>
      match f err with
      | .nullValue => none
      | .gqlError rewritten => some (.full { err with message := rewritten.message })
      | .notAnError => some (.full err)
    | none => some (.full err)

/-- The extension's private `addError`: builds the `Trace.Error` record from
the reported error and hands it to the tree builder at the error's path. -/
def extensionAddError (b : Builder) (r : ReportedError) : Builder × Except StateError Unit :=
  addError b r.errPath
    { message := r.msg, location := r.locs, json := reportedJson r }

/-- `didEncounterErrors`: each error is rewritten; a `null` result skips it,
anything else is attached via the builder (a builder `StateError` aborts the
loop by propagating). -/
def didEncounterErrors (opts : ReportingOptions) (b : Builder) (errs : List GQLError) :
    Builder × Except StateError Unit :=
  errs.foldl (fun acc err =>
    match acc.2 with
    | .error _ => acc
    | .ok _ =>
      match rewriteError opts err with
      | none => acc
      | some r => extensionAddError acc.1 r) (b, .ok ())

/-- The boolean signals of `requestContext.metrics` (JS truthiness folded to
`Bool`). -/
structure Metrics where
  persistedQueryHit : Bool := false
  persistedQueryRegister : Bool := false
  responseCacheHit : Bool := false
  forbiddenOperation : Bool := false
  registeredOperation : Bool := false
deriving DecidableEq, Repr

/-- The five boolean flags of the emitted `Trace` (protobuf defaults:
`false`). -/
structure TraceFlags where
  fullQueryCacheHit : Bool := false
  forbiddenOperation : Bool := false
  registeredOperation : Bool := false
  persistedQueryHit : Bool := false
  persistedQueryRegister : Bool := false
deriving DecidableEq, Repr

/-- The flag writes performed at request start: the two persisted-query flags
are set from the metrics — but only inside the `privateHeaders !== true`
block. -/
def requestStartFlags (privateHeaders : PrivacyOpt) (m : Metrics) (t : TraceFlags) :
    TraceFlags :=
  if privateHeaders = .boolOpt true then t
  else
    let t1 := if m.persistedQueryHit then { t with persistedQueryHit := true } else t
    if m.persistedQueryRegister then { t1 with persistedQueryRegister := true } else t1

/-- The flag writes performed by the end handler returned from
`requestDidStart`: the cache-hit, forbidden and registered flags are set
directly from the metrics. -/
def requestEndFlags (m : Metrics) (t : TraceFlags) : TraceFlags :=
  { t with
    fullQueryCacheHit := m.responseCacheHit,
    forbiddenOperation := m.forbiddenOperation,
    registeredOperation := m.registeredOperation }

/-- The boolean flags of the trace emitted at request end, as a function of
the configuration and the metrics. -/
def emittedFlags (privateHeaders : PrivacyOpt) (m : Metrics) : TraceFlags :=
  requestEndFlags m (requestStartFlags privateHeaders m {})

/-- Spec wording of the policy side of header redaction: blanket redact-all,
or the exception list contains the name under case-insensitive comparison. -/
def policyRedactsHeaderSpec (opt : PrivacyOpt) (key : String) : Prop :=
  opt = .boolOpt true ∨
    match opt with
    | .listOpt l => ∃ n ∈ l, n.toLower = key.toLower
    | _ => False

instance (opt : PrivacyOpt) (key : String) : Decidable (policyRedactsHeaderSpec opt key) :=
  decidable_of_iff (opt = .boolOpt true ∨ headerRedactedByPolicy opt key = true)
    (by
      unfold policyRedactsHeaderSpec headerRedactedByPolicy
      cases opt with
      | boolOpt bb => simp
      | notSet => simp
      | listOpt l => simp [List.any_eq_true])

/-- Spec wording of header exclusion: the fixed always-redacted set,
regardless of policy, or the active policy redacts the name. -/
def headerExcludedSpec (opt : PrivacyOpt) (key : String) : Prop :=
  key = "authorization" ∨ key = "cookie" ∨ key = "set-cookie"
    ∨ policyRedactsHeaderSpec opt key

instance (opt : PrivacyOpt) (key : String) : Decidable (headerExcludedSpec opt key) := by
  unfold headerExcludedSpec
  infer_instance

/-- The `Trace.Error` record produced for a masked error. -/
def maskedTraceError : TraceError :=
  { message := "<masked>", location := [],
    json := reportedJson (.maskedShape "<masked>") }

/-- A whole request's worth of field-start events, arriving in list order on
a freshly started builder (declared types and offsets do not affect the tree
shape). -/
def runFields (t0 : Nat) (ps : List ResponsePath) : Builder :=
  ps.foldl (fun b p => (willResolveField b p "T" "P" 0).1) (startTiming {} t0).1

/-- `Array.join('.')` at the character level. -/
def joinChars : List (List Char) → List Char
  | [] => []
  | [s] => s
  | s :: t :: rest => s ++ '.' :: joinChars (t :: rest)

/-- A segment string that cannot collide across levels of the dot-join: it is
nonempty and dot-free (every GraphQL field name or alias, and every decimal
index rendering, has this shape). -/
def goodString (s : String) : Prop := s ≠ "" ∧ '.' ∉ s.data

/-- A path key whose string form is nonempty and dot-free. -/
def goodKey (k : PathKey) : Prop := goodString (pathKeyString k)

instance (s : String) : Decidable (goodString s) := by
  unfold goodString
  infer_instance

instance (k : PathKey) : Decidable (goodKey k) := by
  unfold goodKey
  infer_instance

/-- A registry entry of the verification bookkeeping: a created path together
with whether its node has already been appended to its parent's child list. -/
abbrev Entry := ResponsePath × Bool

/-- The arena ids (position + 1, offset by `i`) of the linked entries whose
path extends `q` by exactly one leading segment, in creation order. -/
def childIdsFrom (i : Nat) (q : ResponsePath) : List Entry → List Nat
  | [] => []
  | e :: rest =>
    if e.2 = true ∧ e.1.tail? = some q then (i + 1) :: childIdsFrom (i + 1) q rest
    else childIdsFrom (i + 1) q rest

/-- The expected child list of the node for path `q` given registry `T`. -/
def childIds (T : List Entry) (q : ResponsePath) : List Nat := childIdsFrom 0 q T

/-- The node carries the segment identity of the path's last segment:
`fieldName` for a string, `index` for a number (the root carries neither). -/
def segMatches (nd : TraceNode) (p : ResponsePath) : Prop :=
  match p with
  | [] => True
  | PathKey.fieldName s :: _ => nd.fieldName = some s ∧ nd.index = none
  | PathKey.index i :: _ => nd.index = some i ∧ nd.fieldName = none

/-- The chain of paths `newNode` creates for `p`: `p` itself, then the
missing ancestors, in allocation order, stopping before the first ancestor
that already exists (or the root). -/
def missingChain (havePaths : List ResponsePath) : ResponsePath → List ResponsePath
  | [] => []
  | k :: prev =>
    (k :: prev) :: (if prev = [] ∨ prev ∈ havePaths then [] else missingChain havePaths prev)

/-- The verification invariant tying a builder state to the registry `T` of
created paths in allocation order (the node for the path at registry position
`i` lives at arena index `i + 1`; the root is arena index `0`). -/
structure InvT (b : Builder) (T : List Entry) : Prop where
  arenaLen : b.arena.length = T.length + 1
  lookupRoot : alookup rootResponsePath b.pathMap = some 0
  lookupMem : ∀ i q, (T.map Prod.fst)[i]? = some q →
    alookup (responsePathAsString q) b.pathMap = some (i + 1)
  lookupNone : ∀ s, s ≠ rootResponsePath →
    (∀ q ∈ T.map Prod.fst, s ≠ responsePathAsString q) →
    alookup s b.pathMap = none
  nodeSpec : ∀ i q, (T.map Prod.fst)[i]? = some q →
    ∃ nd, b.arena[i + 1]? = some nd ∧ segMatches nd q ∧ nd.child = childIds T q
  rootSpec : ∃ nd, b.arena[0]? = some nd ∧ nd.child = childIds T []
  entriesNonempty : ∀ q ∈ T.map Prod.fst, q ≠ []
  pathsNodup : (T.map Prod.fst).Nodup
  linkedTail : ∀ e ∈ T, e.2 = true → e.1.tail = [] ∨ e.1.tail ∈ T.map Prod.fst

theorem modifyAt_length (l : List TraceNode) (i : Nat) (f : TraceNode → TraceNode) :
    (modifyAt l i f).length = l.length := by
  induction l generalizing i with
  | nil => rfl
  | cons a t ih =>
    cases i with
    | zero => rfl
    | succ n => simpa [modifyAt] using ih n

theorem modifyAt_getElem?_ne (l : List TraceNode) (i j : Nat) (f : TraceNode → TraceNode)
    (h : j ≠ i) : (modifyAt l i f)[j]? = l[j]? := by
  induction l generalizing i j with
  | nil => rfl
  | cons a t ih =>
    cases i with
    | zero =>
      cases j with
      | zero => exact absurd rfl h
      | succ m => simp [modifyAt]
    | succ n =>
      cases j with
      | zero => simp [modifyAt]
      | succ m =>
        simp only [modifyAt, List.getElem?_cons_succ]
        exact ih n m (fun hc => h (by rw [hc]))

theorem modifyAt_getElem?_eq (l : List TraceNode) (i : Nat) (f : TraceNode → TraceNode)
    (a : TraceNode) (h : l[i]? = some a) : (modifyAt l i f)[i]? = some (f a) := by
  induction l generalizing i with
  | nil => simp at h
  | cons b t ih =>
    cases i with
    | zero =>
      simp at h
      subst h
      simp [modifyAt]
    | succ n =>
      simp only [List.getElem?_cons_succ] at h
      simpa [modifyAt] using ih n h

theorem newNode_snd (b : Builder) (k : PathKey) (prev : ResponsePath) :
    (newNode b (k :: prev)).2 = b.arena.length := rfl

theorem newNode_cons (b : Builder) (k : PathKey) (prev : ResponsePath) :
    newNode b (k :: prev) =
      (let b1 : Builder := { b with
         arena := b.arena ++ [segNode k],
         pathMap := (responsePathAsString (k :: prev), b.arena.length) :: b.pathMap }
       let pr := ensureParentNode b1 prev
       ({ pr.1 with arena := modifyAt pr.1.arena pr.2 (fun n => { n with child := n.child ++ [b.arena.length] }) },
        b.arena.length)) := rfl

theorem ensureParentNode_arena_le (prev : ResponsePath) (b : Builder)
    (hnew : ∀ b1 : Builder, b1.arena.length ≤ (newNode b1 prev).1.arena.length) :
    b.arena.length ≤ (ensureParentNode b prev).1.arena.length := by
  rw [ensureParentNode]
  cases alookup (responsePathAsString prev) b.pathMap with
  | some pid => exact Nat.le_refl _
  | none => exact hnew b

theorem newNode_arena_le (p : ResponsePath) : ∀ b : Builder,
    b.arena.length ≤ (newNode b p).1.arena.length := by
  induction p with
  | nil => intro b; exact Nat.le_refl _
  | cons k prev ih =>
    intro b
    rw [newNode_cons]
    simp only [modifyAt_length]
    have h1 : b.arena.length + 1 = ({ b with
        arena := b.arena ++ [segNode k],
        pathMap := (responsePathAsString (k :: prev), b.arena.length) :: b.pathMap
          : Builder }).arena.length := by
      simp
    calc b.arena.length ≤ b.arena.length + 1 := Nat.le_succ _
      _ ≤ _ := by rw [h1]; exact ensureParentNode_arena_le prev _ ih

theorem newNode_cons_arena (b : Builder) (k : PathKey) (prev : ResponsePath) :
    b.arena.length + 1 ≤ (newNode b (k :: prev)).1.arena.length := by
  rw [newNode_cons]
  simp only [modifyAt_length]
  have h1 : b.arena.length + 1 = ({ b with
      arena := b.arena ++ [segNode k],
      pathMap := (responsePathAsString (k :: prev), b.arena.length) :: b.pathMap
        : Builder }).arena.length := by
    simp
  rw [h1]
  exact ensureParentNode_arena_le prev _ (newNode_arena_le prev)

/-- C1 (counterexample): calling `willResolveField` twice for the very same
path `["a"]` does not reuse the existing node — a second node with the same
segment identity is created and appended to the root's child list, so two
nodes exist for one path. -/
theorem c1_counterexample :
    (let b0 := (startTiming {} 0).1
     let b1 := (willResolveField b0 [PathKey.fieldName "a"] "T" "Q" 1).1
     let b2 := (willResolveField b1 [PathKey.fieldName "a"] "T" "Q" 2).1
     b2.arena.length = 3
       ∧ (b2.arena.getD 0 {}).child = [1, 2]
       ∧ (b2.arena.getD 1 {}).fieldName = some "a"
       ∧ (b2.arena.getD 2 {}).fieldName = some "a") := by decide

/-- C1 (amended): node creation is not idempotent.  In the Started window,
`willResolveField` always allocates a fresh node — the returned end-handle
index is the previous arena size, an index no existing node occupies, and
the arena strictly grows — even when a node for the path already exists, in
which case the new node is a duplicate (first creation does not win). -/
theorem c1_amended (b : Builder) (k : PathKey) (prev : ResponsePath)
    (returnType parentType : String) (now o : Nat)
    (hstart : b.startHrTime = some o) (hstop : b.stopped = false) :
    ∃ b2 : Builder,
      willResolveField b (k :: prev) returnType parentType now = (b2, .ok b.arena.length)
        ∧ b.arena.length + 1 ≤ b2.arena.length := by
  rw [willResolveField, hstart]
  simp only [hstop, Bool.false_eq_true, if_false, newNode_snd]
  refine ⟨_, rfl, ?_⟩
  simp only [modifyAt_length]
  exact newNode_cons_arena b k prev

/-- C1 (amended) witness at a concrete Started builder. -/
theorem c1_amended_witness :
    ∃ b2 : Builder,
      willResolveField { startHrTime := some 0 } [PathKey.fieldName "a"] "T" "Q" 5
          = (b2, .ok 1)
        ∧ 2 ≤ b2.arena.length :=
  c1_amended { startHrTime := some 0 } (PathKey.fieldName "a") [] "T" "Q" 5 0 rfl rfl

/-- C3 (counterexample): the end handle returned by `willResolveField` has no
lifecycle guard.  Invoked after `stopTiming`, it does not fail — it silently
mutates the node's end offset. -/
theorem c3_counterexample :
    (let b0 := (startTiming {} 0).1
     let b1 := (willResolveField b0 [PathKey.fieldName "a"] "T" "Q" 1).1
     let b2 := (stopTiming b1 2).1
     b2.stopped = true
       ∧ fieldEndHandler b2 1 9 ≠ b2
       ∧ ((fieldEndHandler b2 1 9).arena.getD 1 {}).endTime = some 9) := by decide

/-- C3 (amended): every mutating operation of the tree builder other than
construction and the field-end handle fails with a `StateError` outside its
valid window and leaves the state unchanged (`startTiming` outside
Not-Started; `willResolveField`, `addError`, `stopTiming` outside Started) —
but the field-end handle never checks the lifecycle: it performs its
end-offset write unconditionally, even on a stopped builder. -/
theorem c3_amended :
    (∀ b now o, b.startHrTime = some o →
      startTiming b now = (b, .error "startTiming called twice!"))
    ∧ (∀ b now, b.startHrTime = none → b.stopped = true →
      startTiming b now = (b, .error "startTiming called after stopTiming!"))
    ∧ (∀ b p rt pt now, b.startHrTime = none →
      willResolveField b p rt pt now = (b, .error "willResolveField called before startTiming!"))
    ∧ (∀ b p rt pt now o, b.stopped = true → b.startHrTime = some o →
      willResolveField b p rt pt now = (b, .error "willResolveField called after stopTiming!"))
    ∧ (∀ b p e, b.startHrTime = none →
      addError b p e = (b, .error "addError called before startTiming!"))
    ∧ (∀ b p e o, b.stopped = true → b.startHrTime = some o →
      addError b p e = (b, .error "addError called after stopTiming!"))
    ∧ (∀ b now, b.startHrTime = none →
      stopTiming b now = (b, .error "stopTiming called before startTiming!"))
    ∧ (∀ b now o, b.stopped = true → b.startHrTime = some o →
      stopTiming b now = (b, .error "stopTiming called twice!"))
    ∧ (∀ b nid now nd, b.arena[nid]? = some nd →
      (fieldEndHandler b nid now).arena[nid]?
        = some { nd with endTime := some (now - b.startHrTime.getD 0) }) := by
  refine ⟨?_, ?_, ?_, ?_, ?_, ?_, ?_, ?_, ?_⟩
  · intro b now o h; rw [startTiming, h]
  · intro b now h hs; rw [startTiming, h]; simp [hs]
  · intro b p rt pt now h; rw [willResolveField, h]
  · intro b p rt pt now o hs h; rw [willResolveField, h]; simp [hs]
  · intro b p e h; rw [addError.eq_def, h]
  · intro b p e o hs h; rw [addError.eq_def, h]; simp [hs]
  · intro b now h; rw [stopTiming, h]
  · intro b now o hs h; rw [stopTiming, h]; simp [hs]
  · intro b nid now nd h
    exact modifyAt_getElem?_eq b.arena nid _ nd h

/-- C3 (amended) witness: each guarded operation errors without mutation on
concrete out-of-window builders, and the end handle writes on a concrete
stopped builder. -/
theorem c3_amended_witness :
    startTiming { startHrTime := some 3 } 9
        = ({ startHrTime := some 3 }, .error "startTiming called twice!")
    ∧ startTiming { stopped := true } 9
        = ({ stopped := true }, .error "startTiming called after stopTiming!")
    ∧ willResolveField {} [] "T" "Q" 9
        = ({}, .error "willResolveField called before startTiming!")
    ∧ willResolveField { startHrTime := some 3, stopped := true } [] "T" "Q" 9
        = ({ startHrTime := some 3, stopped := true },
           .error "willResolveField called after stopTiming!")
    ∧ addError {} none { message := "m", location := [], json := "j" }
        = ({}, .error "addError called before startTiming!")
    ∧ addError { startHrTime := some 3, stopped := true } none
          { message := "m", location := [], json := "j" }
        = ({ startHrTime := some 3, stopped := true },
           .error "addError called after stopTiming!")
    ∧ stopTiming {} 9 = ({}, .error "stopTiming called before startTiming!")
    ∧ stopTiming { startHrTime := some 3, stopped := true } 9
        = ({ startHrTime := some 3, stopped := true }, .error "stopTiming called twice!")
    ∧ (fieldEndHandler { startHrTime := some 3, stopped := true } 0 9).arena[0]?
        = some { endTime := some 6 } :=
  ⟨c3_amended.1 _ 9 3 rfl,
   c3_amended.2.1 _ 9 rfl rfl,
   c3_amended.2.2.1 _ [] "T" "Q" 9 rfl,
   c3_amended.2.2.2.1 _ [] "T" "Q" 9 3 rfl rfl,
   c3_amended.2.2.2.2.1 _ none _ rfl,
   c3_amended.2.2.2.2.2.1 _ none _ 3 rfl rfl,
   c3_amended.2.2.2.2.2.2.1 _ 9 rfl,
   c3_amended.2.2.2.2.2.2.2.1 _ 9 3 rfl rfl,
   c3_amended.2.2.2.2.2.2.2.2 _ 0 9 {} rfl⟩

/-- C4 (confirmed): once `stopTiming` has returned the duration and the root
node, a second call fails with the `StateError` "stopTiming called twice!"
and leaves the builder state — in particular the root node — exactly as the
first call left it. -/
theorem c4_stop_twice (b : Builder) (o now now2 : Nat)
    (hstart : b.startHrTime = some o) (hstop : b.stopped = false) :
    stopTiming b now = ({ b with stopped := true }, .ok (now - o, b.arena.getD 0 {}))
    ∧ stopTiming { b with stopped := true } now2
        = ({ b with stopped := true }, .error "stopTiming called twice!") := by
  constructor
  · rw [stopTiming, hstart]; simp [hstop]
  · rw [stopTiming.eq_def]
    have he : ({ b with stopped := true } : Builder).startHrTime = some o := hstart
    rw [he]
    simp

/-- C4 witness at a concrete started builder. -/
theorem c4_stop_twice_witness :
    stopTiming { startHrTime := some 3 } 10
        = ({ startHrTime := some 3, stopped := true }, .ok (7, {}))
    ∧ stopTiming { startHrTime := some 3, stopped := true } 11
        = ({ startHrTime := some 3, stopped := true }, .error "stopTiming called twice!") :=
  c4_stop_twice { startHrTime := some 3 } 3 10 11 rfl rfl

/-- C5 (confirmed): in the Started window `addError` succeeds and appends the
error to exactly one node `t`: the root (index 0) when the path is absent,
the mapped node when the joined path string is registered, and the root again
when it is not; an empty path resolves to the root through the root map
entry.  Every node other than `t` is untouched. -/
theorem c5_addError_target (b : Builder) (p : Option (List PathKey)) (e : TraceError) (o : Nat)
    (hstart : b.startHrTime = some o) (hstop : b.stopped = false)
    (hroot : alookup rootResponsePath b.pathMap = some 0) :
    ∃ t : Nat,
      addError b p e
          = ({ b with arena := modifyAt b.arena t (fun n => { n with error := n.error ++ [e] }) },
             .ok ())
        ∧ (p = none → t = 0)
        ∧ (∀ q n, p = some q → alookup (joinDot (q.map pathKeyString)) b.pathMap = some n → t = n)
        ∧ (∀ q, p = some q → alookup (joinDot (q.map pathKeyString)) b.pathMap = none → t = 0)
        ∧ (p = some [] → t = 0)
        ∧ (∀ j, j ≠ t →
            (modifyAt b.arena t (fun n => { n with error := n.error ++ [e] }))[j]? = b.arena[j]?)
        ∧ (∀ nd, b.arena[t]? = some nd →
            (modifyAt b.arena t (fun n => { n with error := n.error ++ [e] }))[t]?
              = some { nd with error := nd.error ++ [e] }) := by
  rw [addError.eq_def, hstart]
  simp only [hstop, Bool.false_eq_true, if_false]
  refine ⟨_, rfl, ?_, ?_, ?_, ?_, ?_, ?_⟩
  · intro hp; subst hp; rfl
  · intro q n hp hl; subst hp; simp [hl]
  · intro q hp hl; subst hp; simp [hl]
  · intro hp; subst hp
    have h0 : alookup (joinDot []) b.pathMap = some 0 := hroot
    simp [h0]
  · intro j hj
    exact modifyAt_getElem?_ne b.arena _ j _ hj
  · intro nd hnd
    exact modifyAt_getElem?_eq b.arena _ _ nd hnd

/-- C5 witness at a concrete builder with one registered path. -/
theorem c5_addError_target_witness :
    ∃ t : Nat,
      addError
          { startHrTime := some 0,
            arena := [{}, { fieldName := some "a" }],
            pathMap := [("a", 1), ("", 0)] }
          (some [PathKey.fieldName "a"])
          { message := "m", location := [], json := "j" }
          = ({ startHrTime := some 0,
               arena := modifyAt [{}, { fieldName := some "a" }] t
                 (fun n => { n with error := n.error ++
                   [{ message := "m", location := [], json := "j" }] }),
               pathMap := [("a", 1), ("", 0)] },
             .ok ())
        ∧ (some [PathKey.fieldName "a"] = none → t = 0)
        ∧ (∀ q n, some [PathKey.fieldName "a"] = some q →
            alookup (joinDot (q.map pathKeyString)) [("a", 1), ("", 0)] = some n → t = n)
        ∧ (∀ q, some [PathKey.fieldName "a"] = some q →
            alookup (joinDot (q.map pathKeyString)) [("a", 1), ("", 0)] = none → t = 0)
        ∧ (some [PathKey.fieldName "a"] = some [] → t = 0)
        ∧ (∀ j, j ≠ t →
            (modifyAt [{}, { fieldName := some "a" }] t
              (fun n => { n with error := n.error ++
                [{ message := "m", location := [], json := "j" }] }))[j]?
              = [({} : TraceNode), { fieldName := some "a" }][j]?)
        ∧ (∀ nd, [({} : TraceNode), { fieldName := some "a" }][t]? = some nd →
            (modifyAt [{}, { fieldName := some "a" }] t
              (fun n => { n with error := n.error ++
                [{ message := "m", location := [], json := "j" }] }))[t]?
              = some { nd with error := nd.error ++
                  [{ message := "m", location := [], json := "j" }] }) :=
  c5_addError_target
    { startHrTime := some 0,
      arena := [{}, { fieldName := some "a" }],
      pathMap := [("a", 1), ("", 0)] }
    (some [PathKey.fieldName "a"])
    { message := "m", location := [], json := "j" }
    0 rfl rfl (by decide)

theorem policyRedactsHeaderSpec_iff (opt : PrivacyOpt) (key : String) :
    policyRedactsHeaderSpec opt key
      ↔ (opt = .boolOpt true ∨ headerRedactedByPolicy opt key = true) := by
  unfold policyRedactsHeaderSpec headerRedactedByPolicy
  cases opt with
  | boolOpt bb => simp
  | notSet => simp
  | listOpt l => simp [List.any_eq_true]

theorem alwaysRedactedHeader_iff (key : String) :
    alwaysRedactedHeader key = true
      ↔ (key = "authorization" ∨ key = "cookie" ∨ key = "set-cookie") := by
  constructor
  · intro h
    simp only [alwaysRedactedHeader, Bool.or_eq_true, beq_iff_eq] at h
    tauto
  · intro h
    simp only [alwaysRedactedHeader, Bool.or_eq_true, beq_iff_eq]
    tauto

theorem headerExcludedSpec_iff (opt : PrivacyOpt) (key : String) (hb : opt ≠ .boolOpt true) :
    headerExcludedSpec opt key
      ↔ (headerRedactedByPolicy opt key = true ∨ alwaysRedactedHeader key = true) := by
  rw [headerExcludedSpec, policyRedactsHeaderSpec_iff, alwaysRedactedHeader_iff]
  tauto

/-- C6 (confirmed): the header snapshot is exactly the input headers with
the spec-worded exclusions filtered out — a header is dropped iff its name is
`authorization`/`cookie`/`set-cookie` (regardless of policy), or the policy
is blanket redact-all, or the exception list matches it case-insensitively —
and every surviving header is recorded with its (singleton) value. -/
theorem c6_header_snapshot (opt : PrivacyOpt) (hs : List (String × String)) :
    requestHeadersSnapshot opt hs
      = (hs.filter (fun kv => decide (¬ headerExcludedSpec opt kv.1))).map
          (fun kv => (kv.1, [kv.2])) := by
  rw [requestHeadersSnapshot]
  by_cases hb : opt = .boolOpt true
  · subst hb
    simp only [if_pos rfl]
    have hall : ∀ kv : String × String, kv ∈ hs →
        (decide (¬ headerExcludedSpec (.boolOpt true) kv.1)) = false := by
      intro kv _
      have : headerExcludedSpec (.boolOpt true) kv.1 :=
        Or.inr (Or.inr (Or.inr (Or.inl rfl)))
      simp [this]
    rw [List.filter_eq_nil_iff.mpr (by intro a ha; simp [hall a ha])]
    rfl
  · rw [if_neg hb]
    induction hs with
    | nil => rfl
    | cons kv t ih =>
      rw [List.filterMap_cons, List.filter_cons]
      by_cases hexc : headerExcludedSpec opt kv.1
      · have h1 : headerRedactedByPolicy opt kv.1 = true ∨ alwaysRedactedHeader kv.1 = true :=
          (headerExcludedSpec_iff opt kv.1 hb).mp hexc
        have h2 : (decide (¬ headerExcludedSpec opt kv.1)) = false := by simp [hexc]
        rw [h2]
        simp only [Bool.false_eq_true, if_false]
        rcases h1 with h1 | h1
        · rw [h1]
          simpa using ih
        · cases hpol : headerRedactedByPolicy opt kv.1 with
          | true => simpa using ih
          | false => rw [h1]; simpa using ih
      · have h1 : headerRedactedByPolicy opt kv.1 = false := by
          cases hpol : headerRedactedByPolicy opt kv.1 with
          | false => rfl
          | true =>
            exact absurd ((headerExcludedSpec_iff opt kv.1 hb).mpr (Or.inl hpol)) hexc
        have h2 : alwaysRedactedHeader kv.1 = false := by
          cases hfix : alwaysRedactedHeader kv.1 with
          | false => rfl
          | true =>
            exact absurd ((headerExcludedSpec_iff opt kv.1 hb).mpr (Or.inr hfix)) hexc
        have h3 : (decide (¬ headerExcludedSpec opt kv.1)) = true := by simp [hexc]
        rw [h1, h2, h3]
        simp only [Bool.false_eq_true, if_false, if_true, List.map_cons]
        rw [ih]

/-- C7 (confirmed): when a variable snapshot is built (the policy is not
blanket redact-all), every variable name is recorded: with the empty-string
value when the policy redacts it, with its JSON text when serialisation
succeeds (a legitimate empty-string value being recorded as the quoted
two-character string), and with the fixed sentinel when serialisation fails —
the failure never escapes, the snapshot is always produced. -/
theorem c7_variables_snapshot (opt : PrivacyOpt) (vs : List (String × JSValue))
    (hb : opt ≠ .boolOpt true) :
    stringifyJS (.strV "") = some "\"\""
    ∧ ∃ l, variablesSnapshot opt (some vs) = some l
        ∧ ∀ name v, (name, v) ∈ vs →
            ((variableRedactedByPolicy opt name = true → (name, "") ∈ l)
            ∧ (variableRedactedByPolicy opt name = false →
                (∀ s, stringifyJS v = some s → (name, s) ∈ l)
                ∧ (stringifyJS v = none → (name, unableToConvert) ∈ l))) := by
  constructor
  · rfl
  · rw [variablesSnapshot]
    rw [if_neg hb]
    refine ⟨_, rfl, ?_⟩
    intro name v hmem
    constructor
    · intro hred
      have : (fun nv : String × JSValue =>
          if variableRedactedByPolicy opt nv.1 then (nv.1, "")
          else
            match stringifyJS nv.2 with
            | some s => (nv.1, s)
            | none => (nv.1, unableToConvert)) (name, v) = (name, "") := by
        simp [hred]
      exact this ▸ List.mem_map_of_mem _ hmem
    · intro hred
      constructor
      · intro s hs
        have : (fun nv : String × JSValue =>
            if variableRedactedByPolicy opt nv.1 then (nv.1, "")
            else
              match stringifyJS nv.2 with
              | some s => (nv.1, s)
              | none => (nv.1, unableToConvert)) (name, v) = (name, s) := by
          simp [hred, hs]
        exact this ▸ List.mem_map_of_mem _ hmem
      · intro hs
        have : (fun nv : String × JSValue =>
            if variableRedactedByPolicy opt nv.1 then (nv.1, "")
            else
              match stringifyJS nv.2 with
              | some s => (nv.1, s)
              | none => (nv.1, unableToConvert)) (name, v) = (name, unableToConvert) := by
          simp [hred, hs]
        exact this ▸ List.mem_map_of_mem _ hmem

/-- C7 witness: the spec scenario — `exceptNames ["password"]` with
`password: "x"`, `user: "bob"` and a failing value. -/
theorem c7_variables_snapshot_witness :
    stringifyJS (.strV "") = some "\"\""
    ∧ ∃ l, variablesSnapshot (.listOpt ["password"])
          (some [("password", .strV "x"), ("user", .strV "bob"), ("bad", .circular)]) = some l
        ∧ ∀ name v,
            (name, v) ∈ [("password", JSValue.strV "x"), ("user", JSValue.strV "bob"),
              ("bad", JSValue.circular)] →
            ((variableRedactedByPolicy (.listOpt ["password"]) name = true → (name, "") ∈ l)
            ∧ (variableRedactedByPolicy (.listOpt ["password"]) name = false →
                (∀ s, stringifyJS v = some s → (name, s) ∈ l)
                ∧ (stringifyJS v = none → (name, unableToConvert) ∈ l))) :=
  c7_variables_snapshot (.listOpt ["password"])
    [("password", .strV "x"), ("user", .strV "bob"), ("bad", .circular)]
    (by decide)

/-- C8 (confirmed): with the custom rewrite policy active (mask off, callback
configured): a `null` return drops the error from the trace entirely (the
builder is untouched); a non-`GraphQLError` return falls back to reporting
the original, unmodified error; a `GraphQLError` return is reported as a new
error carrying the rewritten message together with the original error's
locations, path and extensions. -/
theorem c8_rewrite_policy (opts : ReportingOptions) (f : GQLError → RewriteResult)
    (err : GQLError)
    (hm : opts.maskErrorDetails = false) (hf : opts.rewriteErrorFn = some f) :
    (f err = .nullValue → rewriteError opts err = none
        ∧ ∀ b, didEncounterErrors opts b [err] = (b, .ok ()))
    ∧ (f err = .notAnError → rewriteError opts err = some (.full err))
    ∧ (∀ r, f err = .gqlError r →
        rewriteError opts err = some (.full
          { message := r.message, locations := err.locations,
            path := err.path, extensions := err.extensions })) := by
  refine ⟨?_, ?_, ?_⟩
  · intro hnull
    have hre : rewriteError opts err = none := by
      rw [rewriteError, hm, hf]
      simp [hnull]
    refine ⟨hre, ?_⟩
    intro b
    rw [didEncounterErrors]
    simp [hre]
  · intro hother
    rw [rewriteError, hm, hf]
    simp [hother]
  · intro r hr
    rw [rewriteError, hm, hf]
    simp [hr]

/-- C8 witness: a concrete callback exercising the rewrite branch. -/
theorem c8_rewrite_policy_witness :
    ((fun _ : GQLError => RewriteResult.gqlError { message := "redacted" })
        { message := "boom", locations := some [(1, 2)],
          path := some [PathKey.fieldName "c"], extensions := some [("code", "X")] }
      = .nullValue →
      rewriteError
          { maskErrorDetails := false,
            rewriteErrorFn := some (fun _ => .gqlError { message := "redacted" }) }
          { message := "boom", locations := some [(1, 2)],
            path := some [PathKey.fieldName "c"], extensions := some [("code", "X")] }
        = none
      ∧ ∀ b, didEncounterErrors
          { maskErrorDetails := false,
            rewriteErrorFn := some (fun _ => .gqlError { message := "redacted" }) }
          b
          [{ message := "boom", locations := some [(1, 2)],
             path := some [PathKey.fieldName "c"], extensions := some [("code", "X")] }]
        = (b, .ok ()))
    ∧ ((fun _ : GQLError => RewriteResult.gqlError { message := "redacted" })
        { message := "boom", locations := some [(1, 2)],
          path := some [PathKey.fieldName "c"], extensions := some [("code", "X")] }
      = .notAnError →
      rewriteError
          { maskErrorDetails := false,
            rewriteErrorFn := some (fun _ => .gqlError { message := "redacted" }) }
          { message := "boom", locations := some [(1, 2)],
            path := some [PathKey.fieldName "c"], extensions := some [("code", "X")] }
        = some (.full
            { message := "boom", locations := some [(1, 2)],
              path := some [PathKey.fieldName "c"], extensions := some [("code", "X")] }))
    ∧ (∀ r, (fun _ : GQLError => RewriteResult.gqlError { message := "redacted" })
        { message := "boom", locations := some [(1, 2)],
          path := some [PathKey.fieldName "c"], extensions := some [("code", "X")] }
      = .gqlError r →
      rewriteError
          { maskErrorDetails := false,
            rewriteErrorFn := some (fun _ => .gqlError { message := "redacted" }) }
          { message := "boom", locations := some [(1, 2)],
            path := some [PathKey.fieldName "c"], extensions := some [("code", "X")] }
        = some (.full
            { message := r.message, locations := some [(1, 2)],
              path := some [PathKey.fieldName "c"], extensions := some [("code", "X")] })) :=
  c8_rewrite_policy
    { maskErrorDetails := false,
      rewriteErrorFn := some (fun _ => .gqlError { message := "redacted" }) }
    (fun _ => .gqlError { message := "redacted" })
    { message := "boom", locations := some [(1, 2)],
      path := some [PathKey.fieldName "c"], extensions := some [("code", "X")] }
    rfl rfl

/-- C9 (code evaluated at the failing input): with `privateHeaders: true` the
persisted-query flag writes are skipped — the emitted trace reports both
persisted-query flags `false` although the metrics report them `true`, while
the three end-handler flags do follow the metrics. -/
theorem c9_flags_failing_input :
    emittedFlags (.boolOpt true)
        { persistedQueryHit := true, persistedQueryRegister := true,
          responseCacheHit := true, forbiddenOperation := true,
          registeredOperation := true }
      = { fullQueryCacheHit := true, forbiddenOperation := true,
          registeredOperation := true, persistedQueryHit := false,
          persistedQueryRegister := false } := by decide

/-- C10 (confirmed): with `maskErrorDetails` active the user rewrite callback
is never consulted (the result does not depend on it), every error rewrites
to the bare masked shape, and reporting it appends a record with message
`<masked>` and an empty location list to the root node (index 0) — no matter
where the original error's path pointed — leaving all other nodes
unchanged. -/
theorem c10_mask_error_details (opts : ReportingOptions) (g : GQLError → RewriteResult)
    (err : GQLError) (b : Builder) (o : Nat) (nd : TraceNode)
    (hm : opts.maskErrorDetails = true)
    (hstart : b.startHrTime = some o) (hstop : b.stopped = false)
    (hroot : b.arena[0]? = some nd) :
    rewriteError { opts with rewriteErrorFn := some g } err = rewriteError opts err
    ∧ rewriteError opts err = some (.maskedShape "<masked>")
    ∧ didEncounterErrors opts b [err]
        = ({ b with arena := modifyAt b.arena 0 (fun n => { n with error := n.error ++ [maskedTraceError] }) },
           .ok ())
    ∧ (modifyAt b.arena 0 (fun n => { n with error := n.error ++ [maskedTraceError] }))[0]?
        = some { nd with error := nd.error ++ [maskedTraceError] }
    ∧ (∀ j, j ≠ 0 →
        (modifyAt b.arena 0 (fun n => { n with error := n.error ++ [maskedTraceError] }))[j]?
          = b.arena[j]?) := by
  have hrw : ∀ os : ReportingOptions, os.maskErrorDetails = true →
      rewriteError os err = some (.maskedShape "<masked>") := by
    intro os h
    rw [rewriteError, h]
    simp
  refine ⟨?_, hrw opts hm, ?_, ?_, ?_⟩
  · rw [hrw { opts with rewriteErrorFn := some g } hm, hrw opts hm]
  · rw [didEncounterErrors]
    simp only [List.foldl_cons, List.foldl_nil, hrw opts hm]
    rw [extensionAddError, addError.eq_def, hstart]
    simp only [hstop, Bool.false_eq_true, if_false]
    rfl
  · exact modifyAt_getElem?_eq b.arena 0 _ nd hroot
  · intro j hj
    exact modifyAt_getElem?_ne b.arena 0 j _ hj

/-- C10 witness: a concrete masked configuration, a concrete error carrying a
path, and a concrete started builder. -/
theorem c10_mask_error_details_witness :
    rewriteError
        { maskErrorDetails := true,
          rewriteErrorFn := some (fun _ => .gqlError { message := "zz" }) }
        { message := "boom", locations := some [(3, 4)],
          path := some [PathKey.fieldName "a"] }
      = rewriteError { maskErrorDetails := true }
          { message := "boom", locations := some [(3, 4)],
            path := some [PathKey.fieldName "a"] }
    ∧ rewriteError { maskErrorDetails := true }
          { message := "boom", locations := some [(3, 4)],
            path := some [PathKey.fieldName "a"] }
        = some (.maskedShape "<masked>")
    ∧ didEncounterErrors { maskErrorDetails := true } { startHrTime := some 0 }
          [{ message := "boom", locations := some [(3, 4)],
             path := some [PathKey.fieldName "a"] }]
        = ({ startHrTime := some 0, arena := modifyAt [{}] 0 (fun n => { n with error := n.error ++ [maskedTraceError] }) },
           .ok ())
    ∧ (modifyAt [{}] 0 (fun n => { n with error := n.error ++ [maskedTraceError] }))[0]?
        = some { ({} : TraceNode) with error := ({} : TraceNode).error ++ [maskedTraceError] }
    ∧ (∀ j, j ≠ 0 →
        (modifyAt [{}] 0 (fun n => { n with error := n.error ++ [maskedTraceError] }))[j]?
          = [({} : TraceNode)][j]?) :=
  c10_mask_error_details
    { maskErrorDetails := true,
      rewriteErrorFn := some (fun _ => .gqlError { message := "zz" }) }
    (fun _ => .gqlError { message := "zz" })
    { message := "boom", locations := some [(3, 4)], path := some [PathKey.fieldName "a"] }
    { startHrTime := some 0 } 0 {} rfl rfl rfl rfl

/-- C2 (counterexample): the two distinct paths `a.b` and `a` form the tree
root→a→b, but starting `a.b` before `a` makes the builder create `a` twice:
four nodes, the root with two children both labelled `a` — not isomorphic to
the three-node tree T. -/
theorem c2_counterexample :
    (let ps : List ResponsePath :=
      [[PathKey.fieldName "b", PathKey.fieldName "a"], [PathKey.fieldName "a"]]
     let b := runFields 0 ps
     ps.Nodup
       ∧ b.arena.length = 4
       ∧ (b.arena.getD 0 {}).child = [2, 3]
       ∧ (b.arena.getD 2 {}).fieldName = some "a"
       ∧ (b.arena.getD 3 {}).fieldName = some "a") := by decide

theorem joinDot_data (l : List String) : (joinDot l).data = joinChars (l.map String.data) := by
  induction l with
  | nil => rfl
  | cons s rest ih =>
    cases rest with
    | nil => rfl
    | cons t r =>
      show (s ++ "." ++ joinDot (t :: r)).data = s.data ++ '.' :: joinChars ((t :: r).map String.data)
      rw [String.data_append, String.data_append, ih]
      simp

theorem sep_inj : ∀ (s t u v : List Char), '.' ∉ s → '.' ∉ t →
    s ++ '.' :: u = t ++ '.' :: v → s = t ∧ u = v := by
  intro s
  induction s with
  | nil =>
    intro t u v _ ht h
    cases t with
    | nil => simpa using h
    | cons c t2 =>
      simp only [List.nil_append, List.cons_append, List.cons.injEq] at h
      exact absurd (h.1 ▸ List.mem_cons_self c t2) ht
  | cons c s2 ih =>
    intro t u v hs ht h
    cases t with
    | nil =>
      simp only [List.cons_append, List.nil_append, List.cons.injEq] at h
      exact absurd (h.1 ▸ List.mem_cons_self c s2) hs
    | cons d t2 =>
      simp only [List.cons_append, List.cons.injEq] at h
      obtain ⟨rfl, h2⟩ := h
      have := ih t2 u v (fun hm => hs (List.mem_cons_of_mem _ hm))
        (fun hm => ht (List.mem_cons_of_mem _ hm)) h2
      exact ⟨by rw [this.1], this.2⟩

theorem joinChars_inj : ∀ (l1 l2 : List (List Char)),
    (∀ s ∈ l1, s ≠ [] ∧ '.' ∉ s) → (∀ s ∈ l2, s ≠ [] ∧ '.' ∉ s) →
    joinChars l1 = joinChars l2 → l1 = l2 := by
  intro l1
  induction l1 with
  | nil =>
    intro l2 _ h2 h
    cases l2 with
    | nil => rfl
    | cons t r =>
      cases r with
      | nil => exact absurd h.symm (h2 t (by simp)).1
      | cons u r2 =>
        exfalso
        have : joinChars (t :: u :: r2) = t ++ '.' :: joinChars (u :: r2) := rfl
        rw [this] at h
        exact List.append_ne_nil_of_right_ne_nil t (by simp) h.symm
  | cons s r1 ih =>
    intro l2 h1 h2 h
    cases r1 with
    | nil =>
      cases l2 with
      | nil => exact absurd h (h1 s (by simp)).1
      | cons t r2 =>
        cases r2 with
        | nil =>
          have h' : s = t := h
          rw [h']
        | cons u r3 =>
          exfalso
          have hds : '.' ∉ s := (h1 s (by simp)).2
          have : joinChars (t :: u :: r3) = t ++ '.' :: joinChars (u :: r3) := rfl
          rw [show joinChars [s] = s from rfl, this] at h
          exact hds (h ▸ (List.mem_append.mpr (Or.inr (List.mem_cons_self _ _))))
    | cons s2 r1' =>
      cases l2 with
      | nil =>
        exfalso
        have : joinChars (s :: s2 :: r1') = s ++ '.' :: joinChars (s2 :: r1') := rfl
        rw [this] at h
        exact List.append_ne_nil_of_right_ne_nil s (by simp) h
      | cons t r2 =>
        cases r2 with
        | nil =>
          exfalso
          have hdt : '.' ∉ t := (h2 t (by simp)).2
          have : joinChars (s :: s2 :: r1') = s ++ '.' :: joinChars (s2 :: r1') := rfl
          rw [this, show joinChars [t] = t from rfl] at h
          exact hdt (h ▸ (List.mem_append.mpr (Or.inr (List.mem_cons_self _ _))))
        | cons u r3 =>
          have e1 : joinChars (s :: s2 :: r1') = s ++ '.' :: joinChars (s2 :: r1') := rfl
          have e2 : joinChars (t :: u :: r3) = t ++ '.' :: joinChars (u :: r3) := rfl
          rw [e1, e2] at h
          obtain ⟨hst, hrest⟩ := sep_inj s t _ _ (h1 s (by simp)).2 (h2 t (by simp)).2 h
          have := ih (u :: r3) (fun x hx => h1 x (List.mem_cons_of_mem _ hx))
            (fun x hx => h2 x (List.mem_cons_of_mem _ hx)) hrest
          rw [hst, this]

theorem string_data_ne_nil (s : String) (h : s ≠ "") : s.data ≠ [] := by
  intro hd
  exact h (String.ext hd)

theorem joinDot_inj (l1 l2 : List String)
    (h1 : ∀ s ∈ l1, goodString s) (h2 : ∀ s ∈ l2, goodString s)
    (h : joinDot l1 = joinDot l2) : l1 = l2 := by
  have hd : joinChars (l1.map String.data) = joinChars (l2.map String.data) := by
    rw [← joinDot_data, ← joinDot_data, h]
  have hmap := joinChars_inj (l1.map String.data) (l2.map String.data)
    (by
      intro x hx
      obtain ⟨s, hs, rfl⟩ := List.mem_map.mp hx
      exact ⟨string_data_ne_nil s (h1 s hs).1, (h1 s hs).2⟩)
    (by
      intro x hx
      obtain ⟨s, hs, rfl⟩ := List.mem_map.mp hx
      exact ⟨string_data_ne_nil s (h2 s hs).1, (h2 s hs).2⟩)
    hd
  exact List.map_injective_iff.mpr (fun a b hab => String.ext hab) hmap

theorem joinDot_ne_empty (l : List String) (hl : l ≠ [])
    (h1 : ∀ s ∈ l, goodString s) : joinDot l ≠ "" := by
  intro he
  have hdata : (joinDot l).data = [] := by rw [he]
  rw [joinDot_data] at hdata
  cases l with
  | nil => exact hl rfl
  | cons s rest =>
    cases rest with
    | nil =>
      have hs : s.data ≠ [] := string_data_ne_nil s (h1 s (by simp)).1
      exact hs hdata
    | cons t r =>
      simp only [List.map_cons] at hdata
      have e1 : joinChars (s.data :: t.data :: List.map String.data r) =
          s.data ++ '.' :: joinChars (t.data :: List.map String.data r) := rfl
      rw [e1] at hdata
      exact List.append_ne_nil_of_right_ne_nil s.data (by simp) hdata

theorem map_pathKeyString_inj (p q : List PathKey)
    (hk : ∀ k ∈ p, ∀ k2 ∈ q, pathKeyString k = pathKeyString k2 → k = k2)
    (h : p.map pathKeyString = q.map pathKeyString) : p = q := by
  induction p generalizing q with
  | nil =>
    cases q with
    | nil => rfl
    | cons k2 q2 => simp at h
  | cons k p2 ih =>
    cases q with
    | nil => simp at h
    | cons k2 q2 =>
      simp only [List.map_cons, List.cons.injEq] at h
      have hk12 : k = k2 := hk k (by simp) k2 (by simp) h.1
      have := ih q2 (fun a ha b hb => hk a (List.mem_cons_of_mem _ ha) b (List.mem_cons_of_mem _ hb)) h.2
      rw [hk12, this]

theorem responsePathAsString_ne_root (p : ResponsePath) (hp : ∀ k ∈ p, goodKey k)
    (hne : p ≠ []) : responsePathAsString p ≠ rootResponsePath := by
  have : rootResponsePath = "" := rfl
  rw [this]
  apply joinDot_ne_empty
  · simp [hne]
  · intro s hs
    obtain ⟨k, hkm, rfl⟩ := List.mem_map.mp hs
    exact hp k (List.mem_reverse.mp hkm)

/-- Injectivity of the dot-joined path string on paths with good, mutually
unambiguous keys. -/
theorem responsePathAsString_inj (p q : ResponsePath)
    (hp : ∀ k ∈ p, goodKey k) (hq : ∀ k ∈ q, goodKey k)
    (hk : ∀ k ∈ p, ∀ k2 ∈ q, pathKeyString k = pathKeyString k2 → k = k2)
    (h : responsePathAsString p = responsePathAsString q) : p = q := by
  have := joinDot_inj (p.reverse.map pathKeyString) (q.reverse.map pathKeyString)
    (by
      intro s hs
      obtain ⟨k, hkm, rfl⟩ := List.mem_map.mp hs
      exact hp k (List.mem_reverse.mp hkm))
    (by
      intro s hs
      obtain ⟨k, hkm, rfl⟩ := List.mem_map.mp hs
      exact hq k (List.mem_reverse.mp hkm))
    h
  have := map_pathKeyString_inj p.reverse q.reverse
    (fun a ha b hb => hk a (List.mem_reverse.mp ha) b (List.mem_reverse.mp hb)) this
  exact List.reverse_injective this

theorem childIdsFrom_append (q : ResponsePath) (A B : List Entry) : ∀ i : Nat,
    childIdsFrom i q (A ++ B) = childIdsFrom i q A ++ childIdsFrom (i + A.length) q B := by
  induction A with
  | nil => intro i; simp [childIdsFrom]
  | cons e rest ih =>
    intro i
    simp only [List.cons_append, childIdsFrom]
    have harith : i + 1 + rest.length = i + (e :: rest).length := by
      simp [List.length_cons]
      omega
    split
    · simp only [List.append_eq]
      rw [ih (i + 1), harith]
      rfl
    · simp only [List.append_eq]
      rw [ih (i + 1), harith]

theorem childIdsFrom_nil_of (q : ResponsePath) (T : List Entry)
    (h : ∀ e ∈ T, ¬(e.2 = true ∧ e.1.tail? = some q)) : ∀ i, childIdsFrom i q T = [] := by
  induction T with
  | nil => intro i; rfl
  | cons e rest ih =>
    intro i
    rw [childIdsFrom]
    rw [if_neg (h e (by simp))]
    exact ih (fun x hx => h x (List.mem_cons_of_mem _ hx)) (i + 1)

theorem segMatches_segNode (k : PathKey) (prev : ResponsePath) :
    segMatches (segNode k) (k :: prev) := by
  cases k with
  | fieldName s => exact ⟨rfl, rfl⟩
  | index i => exact ⟨rfl, rfl⟩

theorem missingChain_sub (hv : List ResponsePath) : ∀ (p q : ResponsePath),
    q ∈ missingChain hv p → q ≠ [] ∧ q <:+ p := by
  intro p
  induction p with
  | nil => intro q hq; simp [missingChain] at hq
  | cons k prev ih =>
    intro q hq
    rw [missingChain] at hq
    rcases List.mem_cons.mp hq with rfl | hq2
    · exact ⟨by simp, List.suffix_refl _⟩
    · by_cases hc : prev = [] ∨ prev ∈ hv
      · rw [if_pos hc] at hq2; simp at hq2
      · rw [if_neg hc] at hq2
        obtain ⟨hne, hsfx⟩ := ih q hq2
        exact ⟨hne, hsfx.trans (List.suffix_cons k prev)⟩

theorem suffix_closed_of_tail_closed (hv : List ResponsePath)
    (hcl : ∀ t ∈ hv, t.tail = [] ∨ t.tail ∈ hv) :
    ∀ t, t ∈ hv → ∀ u, u ≠ [] → u <:+ t → u ∈ hv := by
  intro t
  induction t with
  | nil =>
    intro _ u hu hsfx
    exact absurd (List.suffix_nil.mp hsfx) hu
  | cons a r ih =>
    intro ht u hu hsfx
    rcases List.suffix_cons_iff.mp hsfx with rfl | hsfx2
    · exact ht
    · rcases hcl (a :: r) ht with htl | htl
      · rw [show (a :: r).tail = r from rfl] at htl
        subst htl
        exact absurd (List.suffix_nil.mp hsfx2) hu
      · exact ih htl u hu hsfx2

theorem missingChain_cover (hv : List ResponsePath)
    (hcl : ∀ t ∈ hv, ∀ u, u ≠ [] → u <:+ t → u ∈ hv) :
    ∀ (p q : ResponsePath), q ≠ [] → q <:+ p →
    q ∈ hv ∨ q ∈ missingChain hv p := by
  intro p
  induction p with
  | nil =>
    intro q hq hsfx
    exact absurd (List.suffix_nil.mp hsfx) hq
  | cons k prev ih =>
    intro q hq hsfx
    rcases List.suffix_cons_iff.mp hsfx with rfl | hsfx2
    · right; rw [missingChain]; exact List.mem_cons_self _ _
    · by_cases hc : prev = [] ∨ prev ∈ hv
      · rcases hc with hc | hc
        · subst hc
          exact absurd (List.suffix_nil.mp hsfx2) hq
        · exact Or.inl (hcl prev hc q hq hsfx2)
      · rcases ih q hq hsfx2 with h | h
        · exact Or.inl h
        · right
          rw [missingChain, if_neg hc]
          exact List.mem_cons_of_mem _ h

theorem modifyAt_getElem?_full (f : TraceNode → TraceNode) : ∀ (l : List TraceNode) (n i : Nat),
    (modifyAt l n f)[i]? = if i = n then (l[i]?).map f else l[i]? := by
  intro l
  induction l with
  | nil => intro n i; simp [modifyAt]
  | cons a t ih =>
    intro n i
    cases n with
    | zero =>
      cases i with
      | zero => simp [modifyAt]
      | succ m => simp [modifyAt]
    | succ n2 =>
      cases i with
      | zero => simp [modifyAt]
      | succ m =>
        simp only [modifyAt, List.getElem?_cons_succ]
        rw [ih n2 m]
        by_cases hm : m = n2
        · rw [if_pos hm, if_pos (by rw [hm])]
        · rw [if_neg hm, if_neg (fun hc => hm (Nat.succ_injective hc))]

theorem tail?_eq_some_tail (q : ResponsePath) (hq : q ≠ []) : q.tail? = some q.tail := by
  cases q with
  | nil => exact absurd rfl hq
  | cons a r => rfl

theorem tail?_some_elim (l t : ResponsePath) (h : l.tail? = some t) : l.tail = t ∧ l ≠ [] := by
  cases l with
  | nil => simp [List.tail?] at h
  | cons a r => simp [List.tail?] at h; simp [h]

theorem segMatches_congr (nd nd2 : TraceNode) (p : ResponsePath)
    (hf : nd2.fieldName = nd.fieldName) (hi : nd2.index = nd.index)
    (h : segMatches nd p) : segMatches nd2 p := by
  cases p with
  | nil => trivial
  | cons k r =>
    cases k with
    | fieldName s => exact ⟨hf.trans h.1, hi.trans h.2⟩
    | index i => exact ⟨hi.trans h.1, hf.trans h.2⟩

theorem InvT_modify_preserve (b : Builder) (T : List Entry) (h : InvT b T)
    (nid : Nat) (f : TraceNode → TraceNode)
    (hf : ∀ nd, (f nd).fieldName = nd.fieldName ∧ (f nd).index = nd.index
      ∧ (f nd).child = nd.child) :
    InvT { b with arena := modifyAt b.arena nid f } T := by
  refine ⟨?_, h.lookupRoot, h.lookupMem, h.lookupNone, ?_, ?_,
    h.entriesNonempty, h.pathsNodup, h.linkedTail⟩
  · show (modifyAt b.arena nid f).length = T.length + 1
    rw [modifyAt_length]; exact h.arenaLen
  · intro i q hq
    obtain ⟨nd, hnd, hseg, hch⟩ := h.nodeSpec i q hq
    show ∃ nd2, (modifyAt b.arena nid f)[i + 1]? = some nd2 ∧ _
    rw [modifyAt_getElem?_full]
    by_cases hin : i + 1 = nid
    · rw [if_pos hin, hnd]
      exact ⟨f nd, rfl, segMatches_congr nd (f nd) q (hf nd).1 (hf nd).2.1 hseg,
        ((hf nd).2.2).trans hch⟩
    · rw [if_neg hin]
      exact ⟨nd, hnd, hseg, hch⟩
  · obtain ⟨nd, hnd, hch⟩ := h.rootSpec
    show ∃ nd2, (modifyAt b.arena nid f)[0]? = some nd2 ∧ _
    rw [modifyAt_getElem?_full]
    by_cases hin : 0 = nid
    · rw [if_pos hin, hnd]
      exact ⟨f nd, rfl, ((hf nd).2.2).trans hch⟩
    · rw [if_neg hin]
      exact ⟨nd, hnd, hch⟩

theorem childIds_append_false (T : List Entry) (p : ResponsePath) (q : ResponsePath) :
    childIds (T ++ [(p, false)]) q = childIds T q := by
  unfold childIds
  rw [childIdsFrom_append]
  have : childIdsFrom (0 + T.length) q [(p, false)] = [] := by
    rw [childIdsFrom]
    rw [if_neg (by simp)]
    rfl
  rw [this, List.append_nil]

theorem nodup_getElem?_unique {α : Type} (l : List α) (h : l.Nodup) (i j : Nat) (x : α)
    (hi : l[i]? = some x) (hj : l[j]? = some x) : i = j := by
  by_contra hne
  rcases Nat.lt_or_ge i j with hij | hij
  · have hjlen : j < l.length := (List.getElem?_eq_some.mp hj).1
    exact (List.nodup_iff_getElem?_ne_getElem?.mp h) i j hij hjlen (hi.trans hj.symm)
  · have hij2 : j < i := Nat.lt_of_le_of_ne hij (fun e => hne e.symm)
    have hilen : i < l.length := (List.getElem?_eq_some.mp hi).1
    exact (List.nodup_iff_getElem?_ne_getElem?.mp h) j i hij2 hilen (hj.trans hi.symm)

theorem InvT_alloc (b : Builder) (T : List Entry) (k : PathKey) (prev : ResponsePath)
    (hInv : InvT b T)
    (hgoodp : ∀ k2 ∈ k :: prev, goodKey k2)
    (hgoodT : ∀ q ∈ T.map Prod.fst, ∀ k2 ∈ q, goodKey k2)
    (hunamb : ∀ k2 ∈ k :: prev, ∀ q ∈ T.map Prod.fst, ∀ k3 ∈ q,
      pathKeyString k2 = pathKeyString k3 → k2 = k3)
    (hfresh : (k :: prev) ∉ T.map Prod.fst) :
    InvT
      { b with
        arena := b.arena ++ [segNode k],
        pathMap := (responsePathAsString (k :: prev), b.arena.length) :: b.pathMap }
      (T ++ [(k :: prev, false)]) := by
  have hPmap : (T ++ [(k :: prev, false)]).map Prod.fst
      = T.map Prod.fst ++ [k :: prev] := by simp
  have hsp_ne_root : responsePathAsString (k :: prev) ≠ rootResponsePath :=
    responsePathAsString_ne_root (k :: prev) hgoodp (by simp)
  have hsp_ne : ∀ q ∈ T.map Prod.fst,
      responsePathAsString (k :: prev) ≠ responsePathAsString q := by
    intro q hq heq
    have : (k :: prev) = q :=
      responsePathAsString_inj (k :: prev) q hgoodp (hgoodT q hq)
        (fun a ha b hb => hunamb a ha q hq b hb) heq
    exact hfresh (this ▸ hq)
  have hPlen : (T.map Prod.fst).length = T.length := List.length_map _ _
  refine ⟨?_, ?_, ?_, ?_, ?_, ?_, ?_, ?_, ?_⟩
  · show (b.arena ++ [segNode k]).length = (T ++ [(k :: prev, false)]).length + 1
    simp [hInv.arenaLen]
  · show alookup rootResponsePath
      ((responsePathAsString (k :: prev), b.arena.length) :: b.pathMap) = some 0
    rw [alookup, if_neg hsp_ne_root]
    exact hInv.lookupRoot
  · intro i q hq
    rw [hPmap] at hq
    have hlen : i < (T.map Prod.fst).length + 1 := by
      have := (List.getElem?_eq_some.mp hq).1
      simpa using this
    rcases Nat.lt_or_ge i (T.map Prod.fst).length with hi | hi
    · rw [List.getElem?_append_left hi] at hq
      have hqmem : q ∈ T.map Prod.fst := List.getElem?_mem hq
      show alookup (responsePathAsString q) _ = some (i + 1)
      rw [alookup, if_neg (hsp_ne q hqmem)]
      exact hInv.lookupMem i q hq
    · have hieq : i = (T.map Prod.fst).length := Nat.le_antisymm (Nat.lt_succ_iff.mp hlen) hi
      subst hieq
      rw [List.getElem?_append_right (Nat.le_refl _)] at hq
      simp only [Nat.sub_self, List.getElem?_cons_zero, Option.some.injEq] at hq
      subst hq
      show alookup (responsePathAsString (k :: prev)) _ = some _
      rw [alookup, if_pos rfl, hInv.arenaLen, hPlen]
  · intro s hs hsall
    rw [hPmap] at hsall
    have hssp : s ≠ responsePathAsString (k :: prev) :=
      hsall (k :: prev) (List.mem_append.mpr (Or.inr (by simp)))
    show alookup s ((responsePathAsString (k :: prev), b.arena.length) :: b.pathMap) = none
    rw [alookup, if_neg (fun hc => hssp hc.symm)]
    exact hInv.lookupNone s hs (fun q hq => hsall q (List.mem_append.mpr (Or.inl hq)))
  · intro i q hq
    rw [hPmap] at hq
    have hlen : i < (T.map Prod.fst).length + 1 := by
      have := (List.getElem?_eq_some.mp hq).1
      simpa using this
    rcases Nat.lt_or_ge i (T.map Prod.fst).length with hi | hi
    · rw [List.getElem?_append_left hi] at hq
      obtain ⟨nd, hnd, hseg, hch⟩ := hInv.nodeSpec i q hq
      refine ⟨nd, ?_, hseg, ?_⟩
      · show (b.arena ++ [segNode k])[i + 1]? = some nd
        have hi2 : i + 1 < b.arena.length := by
          rw [hInv.arenaLen]
          rw [hPlen] at hi
          omega
        rw [List.getElem?_append_left hi2]
        exact hnd
      · rw [childIds_append_false]
        exact hch
    · have hieq : i = (T.map Prod.fst).length := Nat.le_antisymm (Nat.lt_succ_iff.mp hlen) hi
      subst hieq
      rw [List.getElem?_append_right (Nat.le_refl _)] at hq
      simp only [Nat.sub_self, List.getElem?_cons_zero, Option.some.injEq] at hq
      subst hq
      refine ⟨segNode k, ?_, segMatches_segNode k prev, ?_⟩
      · show (b.arena ++ [segNode k])[(T.map Prod.fst).length + 1]? = some (segNode k)
        have harr : (T.map Prod.fst).length + 1 = b.arena.length := by
          rw [hPlen, hInv.arenaLen]
        rw [harr, List.getElem?_append_right (Nat.le_refl _)]
        simp
      · have hchild : (segNode k).child = [] := by
          cases k <;> rfl
        rw [hchild, childIds_append_false]
        have hnone : ∀ e ∈ T, ¬(e.2 = true ∧ e.1.tail? = some (k :: prev)) := by
          rintro e he ⟨h2, ht⟩
          obtain ⟨htl, hne2⟩ := tail?_some_elim e.1 (k :: prev) ht
          rcases hInv.linkedTail e he h2 with h3 | h3
          · rw [htl] at h3
            simp at h3
          · rw [htl] at h3
            exact hfresh h3
        exact (childIdsFrom_nil_of (k :: prev) T hnone 0).symm
  · obtain ⟨nd, hnd, hch⟩ := hInv.rootSpec
    refine ⟨nd, ?_, ?_⟩
    · show (b.arena ++ [segNode k])[0]? = some nd
      have h0 : 0 < b.arena.length := (List.getElem?_eq_some.mp hnd).1
      rw [List.getElem?_append_left h0]
      exact hnd
    · rw [childIds_append_false]
      exact hch
  · intro q hq
    rw [hPmap] at hq
    rcases List.mem_append.mp hq with h | h
    · exact hInv.entriesNonempty q h
    · simp only [List.mem_singleton] at h
      subst h
      simp
  · rw [hPmap]
    rw [List.nodup_append]
    refine ⟨hInv.pathsNodup, by simp, ?_⟩
    intro a ha hain
    simp only [List.mem_singleton] at hain
    subst hain
    exact hfresh ha
  · intro e he h2
    rcases List.mem_append.mp he with h | h
    · rcases hInv.linkedTail e h h2 with h3 | h3
      · exact Or.inl h3
      · refine Or.inr ?_
        rw [hPmap]
        exact List.mem_append.mpr (Or.inl h3)
    · simp only [List.mem_singleton] at h
      subst h
      simp at h2

theorem childIds_split (T1 T2 : List Entry) (x : Bool) (q r : ResponsePath) :
    childIds (T1 ++ (q, x) :: T2) r
      = childIdsFrom 0 r T1
        ++ (if x = true ∧ q.tail? = some r
            then (T1.length + 1) :: childIdsFrom (T1.length + 1) r T2
            else childIdsFrom (T1.length + 1) r T2) := by
  unfold childIds
  rw [childIdsFrom_append]
  congr 1
  rw [childIdsFrom]
  simp only [Nat.zero_add]

theorem childIds_link_ne (T1 T2 : List Entry) (q r : ResponsePath)
    (h : ¬(q.tail? = some r)) :
    childIds (T1 ++ (q, true) :: T2) r = childIds (T1 ++ (q, false) :: T2) r := by
  rw [childIds_split, childIds_split, if_neg (by tauto), if_neg (by tauto)]

theorem childIds_link_eq (T1 T2 : List Entry) (q r : ResponsePath) (h : q.tail? = some r)
    (hT2 : childIdsFrom (T1.length + 1) r T2 = []) :
    childIds (T1 ++ (q, true) :: T2) r
      = childIds (T1 ++ (q, false) :: T2) r ++ [T1.length + 1] := by
  rw [childIds_split, childIds_split, if_pos ⟨rfl, h⟩, if_neg (by simp), hT2]
  simp

theorem InvT_link (b : Builder) (T1 T2 : List Entry) (q : ResponsePath) (pid : Nat)
    (hInv : InvT b (T1 ++ (q, false) :: T2))
    (hq : q ≠ [])
    (hpid : (q.tail = [] ∧ pid = 0)
      ∨ (∃ j, ((T1 ++ (q, false) :: T2).map Prod.fst)[j]? = some q.tail ∧ pid = j + 1))
    (hnoT2 : ∀ e ∈ T2, ¬(e.2 = true ∧ e.1.tail? = some q.tail)) :
    InvT
      { b with
        arena := modifyAt b.arena pid (fun n => { n with child := n.child ++ [T1.length + 1] }) }
      (T1 ++ (q, true) :: T2) := by
  have hPeq : (T1 ++ (q, true) :: T2).map Prod.fst
      = (T1 ++ (q, false) :: T2).map Prod.fst := by simp
  have htt : q.tail? = some q.tail := tail?_eq_some_tail q hq
  refine ⟨?_, hInv.lookupRoot, ?_, ?_, ?_, ?_, ?_, ?_, ?_⟩
  · show (modifyAt b.arena pid _).length = (T1 ++ (q, true) :: T2).length + 1
    rw [modifyAt_length, hInv.arenaLen]
    simp
  · intro i r hr
    rw [hPeq] at hr
    exact hInv.lookupMem i r hr
  · intro s hs hsall
    rw [hPeq] at hsall
    exact hInv.lookupNone s hs hsall
  · intro i r hr
    rw [hPeq] at hr
    obtain ⟨nd, hnd, hseg, hch⟩ := hInv.nodeSpec i r hr
    show ∃ nd2, (modifyAt b.arena pid _)[i + 1]? = some nd2 ∧ _
    rw [modifyAt_getElem?_full]
    rcases hpid with ⟨htail, hpid0⟩ | ⟨j, hj, hpidj⟩
    · rw [if_neg (by omega)]
      refine ⟨nd, hnd, hseg, ?_⟩
      rw [childIds_link_ne]
      · exact hch
      · rw [htt, htail]
        intro hc
        have : r = [] := by simpa using hc.symm
        exact hInv.entriesNonempty r (List.getElem?_mem hr) this
    · by_cases hij : i = j
      · subst hij
        have hrq : r = q.tail := by
          rw [hr] at hj
          simpa using hj
        rw [if_pos (by omega), hnd]
        refine ⟨_, rfl, segMatches_congr nd _ r rfl rfl hseg, ?_⟩
        show nd.child ++ [T1.length + 1] = childIds (T1 ++ (q, true) :: T2) r
        rw [childIds_link_eq T1 T2 q r (by rw [htt, hrq]) ?hT2, hch]
        case hT2 =>
          apply childIdsFrom_nil_of
          intro e he
          rw [← hrq] at hnoT2
          exact hnoT2 e he
      · rw [if_neg (by omega)]
        refine ⟨nd, hnd, hseg, ?_⟩
        rw [childIds_link_ne]
        · exact hch
        · rw [htt]
          intro hc
          have hrq : r = q.tail := by simpa using hc.symm
          exact hij (nodup_getElem?_unique _ hInv.pathsNodup i j q.tail
            (hrq ▸ hr) hj)
  · obtain ⟨nd0, hnd0, hch0⟩ := hInv.rootSpec
    show ∃ nd2, (modifyAt b.arena pid _)[0]? = some nd2 ∧ _
    rw [modifyAt_getElem?_full]
    rcases hpid with ⟨htail, hpid0⟩ | ⟨j, hj, hpidj⟩
    · rw [if_pos hpid0.symm, hnd0]
      refine ⟨_, rfl, ?_⟩
      show nd0.child ++ [T1.length + 1] = childIds (T1 ++ (q, true) :: T2) []
      rw [childIds_link_eq T1 T2 q [] (by rw [htt, htail]) ?hT2b, hch0]
      case hT2b =>
        apply childIdsFrom_nil_of
        intro e he
        rw [← htail]
        exact hnoT2 e he
    · rw [if_neg (by omega)]
      refine ⟨nd0, hnd0, ?_⟩
      rw [childIds_link_ne]
      · exact hch0
      · rw [htt]
        intro hc
        have : q.tail = [] := by simpa using hc
        exact hInv.entriesNonempty q.tail (List.getElem?_mem hj) this
  · intro r hr
    rw [hPeq] at hr
    exact hInv.entriesNonempty r hr
  · rw [hPeq]
    exact hInv.pathsNodup
  · intro e he h2
    rcases List.mem_append.mp he with h | h
    · have hmem : e ∈ T1 ++ (q, false) :: T2 := List.mem_append.mpr (Or.inl h)
      rcases hInv.linkedTail e hmem h2 with h3 | h3
      · exact Or.inl h3
      · rw [hPeq]
        exact Or.inr h3
    · rcases List.mem_cons.mp h with h | h
      · subst h
        show q.tail = [] ∨ _
        rcases hpid with ⟨htail, _⟩ | ⟨j, hj, _⟩
        · exact Or.inl htail
        · rw [hPeq]
          exact Or.inr (List.getElem?_mem hj)
      · have hmem : e ∈ T1 ++ (q, false) :: T2 :=
          List.mem_append.mpr (Or.inr (List.mem_cons_of_mem _ h))
        rcases hInv.linkedTail e hmem h2 with h3 | h3
        · exact Or.inl h3
        · rw [hPeq]
          exact Or.inr h3

theorem missingChain_snoc (hv : List ResponsePath) (z : ResponsePath) :
    ∀ p : ResponsePath, (∀ q, q <:+ p → q ≠ p → q ≠ z) →
    missingChain (hv ++ [z]) p = missingChain hv p := by
  intro p
  induction p with
  | nil => intro _; rfl
  | cons k prev ih =>
    intro h
    rw [missingChain, missingChain]
    have hmem : (prev = [] ∨ prev ∈ hv ++ [z]) ↔ (prev = [] ∨ prev ∈ hv) := by
      constructor
      · rintro (h1 | h1)
        · exact Or.inl h1
        · rcases List.mem_append.mp h1 with h2 | h2
          · exact Or.inr h2
          · simp only [List.mem_singleton] at h2
            exact absurd h2 (h prev (List.suffix_cons k prev)
              (fun hc => by simpa using congrArg List.length hc))
      · rintro (h1 | h1)
        · exact Or.inl h1
        · exact Or.inr (List.mem_append.mpr (Or.inl h1))
    by_cases hc : prev = [] ∨ prev ∈ hv
    · rw [if_pos (hmem.mpr hc), if_pos hc]
    · rw [if_neg (fun hx => hc (hmem.mp hx)), if_neg hc]
      rw [ih (fun q hq _ => h q (hq.trans (List.suffix_cons k prev))
        (fun hc2 => by
          subst hc2
          have := List.IsSuffix.length_le hq
          simp at this))]

theorem map_fst_pair_true (l : List ResponsePath) :
    List.map (Prod.fst ∘ fun r => (r, true)) l = l := by
  induction l with
  | nil => rfl
  | cons a t ih =>
    simp only [List.map_cons, ih]
    rfl

theorem newNode_spec (U : List PathKey) (hU1 : ∀ k2 ∈ U, goodKey k2)
    (hU2 : ∀ k2 ∈ U, ∀ k3 ∈ U, pathKeyString k2 = pathKeyString k3 → k2 = k3) :
    ∀ (p : ResponsePath), ∀ (b : Builder) (T : List Entry),
    InvT b T →
    (∀ k2 ∈ p, k2 ∈ U) →
    (∀ q ∈ T.map Prod.fst, ∀ k2 ∈ q, k2 ∈ U) →
    p ≠ [] →
    p ∉ T.map Prod.fst →
    (∀ e ∈ T, e.2 = false → p ≠ e.1 ∧ p <:+ e.1) →
    ∃ b2,
      newNode b p = (b2, T.length + 1)
      ∧ InvT b2 (T ++ (missingChain (T.map Prod.fst) p).map (fun r => (r, true)))
      ∧ b2.startHrTime = b.startHrTime ∧ b2.stopped = b.stopped := by
  intro p
  induction p with
  | nil =>
    intro b T _ _ _ hne _ _
    exact absurd rfl hne
  | cons k prev ih =>
    intro b T hInv hkeys hTkeys _ hfresh hdang
    have hgoodp : ∀ k2 ∈ k :: prev, goodKey k2 := fun k2 hk2 => hU1 k2 (hkeys k2 hk2)
    have hgoodT : ∀ q ∈ T.map Prod.fst, ∀ k2 ∈ q, goodKey k2 :=
      fun q hq k2 hk2 => hU1 k2 (hTkeys q hq k2 hk2)
    have hunamb : ∀ k2 ∈ k :: prev, ∀ q ∈ T.map Prod.fst, ∀ k3 ∈ q,
        pathKeyString k2 = pathKeyString k3 → k2 = k3 :=
      fun k2 hk2 q hq k3 hk3 => hU2 k2 (hkeys k2 hk2) k3 (hTkeys q hq k3 hk3)
    have hallocInv := InvT_alloc b T k prev hInv hgoodp hgoodT hunamb hfresh
    set b1 : Builder :=
      { b with
        arena := b.arena ++ [segNode k],
        pathMap := (responsePathAsString (k :: prev), b.arena.length) :: b.pathMap }
      with hb1
    have hcons : newNode b (k :: prev)
        = ({ (ensureParentNode b1 prev).1 with
             arena := modifyAt (ensureParentNode b1 prev).1.arena (ensureParentNode b1 prev).2
               (fun n => { n with child := n.child ++ [b.arena.length] }) },
           b.arena.length) := rfl
    have hblen : b.arena.length = T.length + 1 := hInv.arenaLen
    by_cases hprev : prev = [] ∨ prev ∈ T.map Prod.fst
    · -- the parent node already exists: the chain is just the new path
      have hchain : missingChain (T.map Prod.fst) (k :: prev) = [k :: prev] := by
        rw [missingChain, if_pos hprev]
      rcases hprev with hprev | hprev
      · -- parent is the root
        subst hprev
        have hens : ensureParentNode b1 [] = (b1, 0) := by
          rw [ensureParentNode]
          have hlook : alookup (responsePathAsString []) b1.pathMap = some 0 :=
            hallocInv.lookupRoot
          rw [hlook]
        rw [hens] at hcons
        have hlink := InvT_link b1 T [] (k :: []) 0 hallocInv (by simp)
          (Or.inl ⟨rfl, rfl⟩) (by intro e he; simp at he)
        rw [hblen] at hcons
        refine ⟨_, hcons, ?_, rfl, rfl⟩
        rw [hchain]
        simp only [List.map_cons, List.map_nil]
        exact hlink
      · -- parent is a previously created node
        obtain ⟨j, hj⟩ := List.mem_iff_getElem?.mp hprev
        have hjlt : j < (T.map Prod.fst).length := (List.getElem?_eq_some.mp hj).1
        have hens : ensureParentNode b1 prev = (b1, j + 1) := by
          rw [ensureParentNode]
          have hj1 : ((T ++ [(k :: prev, false)]).map Prod.fst)[j]? = some prev := by
            rw [show (T ++ [(k :: prev, false)]).map Prod.fst
              = T.map Prod.fst ++ [k :: prev] from by simp]
            rw [List.getElem?_append_left hjlt]
            exact hj
          have hlook := hallocInv.lookupMem j prev hj1
          rw [hlook]
        rw [hens] at hcons
        have hpid : ((k :: prev).tail = [] ∧ j + 1 = 0)
            ∨ (∃ j2, ((T ++ (k :: prev, false) :: []).map Prod.fst)[j2]? = some (k :: prev).tail
                ∧ j + 1 = j2 + 1) := by
          refine Or.inr ⟨j, ?_, rfl⟩
          rw [show (T ++ (k :: prev, false) :: []).map Prod.fst
            = T.map Prod.fst ++ [k :: prev] from by simp]
          rw [List.getElem?_append_left hjlt]
          exact hj
        have hlink := InvT_link b1 T [] (k :: prev) (j + 1) hallocInv (by simp)
          hpid (by intro e he; simp at he)
        rw [hblen] at hcons
        refine ⟨_, hcons, ?_, rfl, rfl⟩
        rw [hchain]
        simp only [List.map_cons, List.map_nil]
        exact hlink
    · -- the parent node is missing: recurse
      push_neg at hprev
      obtain ⟨hprevne, hprevfresh⟩ := hprev
      have hprevkeys : ∀ k2 ∈ prev, k2 ∈ U :=
        fun k2 hk2 => hkeys k2 (List.mem_cons_of_mem _ hk2)
      have hgoodprev : ∀ k2 ∈ prev, goodKey k2 := fun k2 hk2 => hU1 k2 (hprevkeys k2 hk2)
      have hprevnep : prev ≠ k :: prev := fun hc => by simpa using congrArg List.length hc
      have hens : ensureParentNode b1 prev = newNode b1 prev := by
        rw [ensureParentNode]
        have hlook : alookup (responsePathAsString prev) b1.pathMap = none := by
          apply hallocInv.lookupNone
          · exact responsePathAsString_ne_root prev hgoodprev hprevne
          · intro q hq
            rw [show (T ++ [(k :: prev, false)]).map Prod.fst
              = T.map Prod.fst ++ [k :: prev] from by simp] at hq
            rcases List.mem_append.mp hq with hq2 | hq2
            · intro heq
              exact hprevfresh ((responsePathAsString_inj prev q hgoodprev (hgoodT q hq2)
                (fun a ha b2 hb2 => hU2 a (hprevkeys a ha) b2 (hTkeys q hq2 b2 hb2)) heq) ▸ hq2)
            · simp only [List.mem_singleton] at hq2
              subst hq2
              intro heq
              exact hprevnep (responsePathAsString_inj prev (k :: prev) hgoodprev hgoodp
                (fun a ha b2 hb2 => hU2 a (hprevkeys a ha) b2 (hkeys b2 hb2)) heq)
        rw [hlook]
      rw [hens] at hcons
      -- apply the induction hypothesis on the alloc'd builder
      have hT1keys : ∀ q ∈ (T ++ [(k :: prev, false)]).map Prod.fst, ∀ k2 ∈ q, k2 ∈ U := by
        intro q hq
        rw [show (T ++ [(k :: prev, false)]).map Prod.fst
          = T.map Prod.fst ++ [k :: prev] from by simp] at hq
        rcases List.mem_append.mp hq with hq2 | hq2
        · exact hTkeys q hq2
        · simp only [List.mem_singleton] at hq2
          subst hq2
          exact hkeys
      have hT1fresh : prev ∉ (T ++ [(k :: prev, false)]).map Prod.fst := by
        rw [show (T ++ [(k :: prev, false)]).map Prod.fst
          = T.map Prod.fst ++ [k :: prev] from by simp]
        intro hc
        rcases List.mem_append.mp hc with hc2 | hc2
        · exact hprevfresh hc2
        · simp only [List.mem_singleton] at hc2
          exact hprevnep hc2
      have hT1dang : ∀ e ∈ T ++ [(k :: prev, false)], e.2 = false →
          prev ≠ e.1 ∧ prev <:+ e.1 := by
        intro e he h2
        rcases List.mem_append.mp he with he2 | he2
        · obtain ⟨hne2, hsfx2⟩ := hdang e he2 h2
          refine ⟨?_, (List.suffix_cons k prev).trans hsfx2⟩
          intro hc
          subst hc
          have := List.IsSuffix.length_le hsfx2
          simp at this
        · simp only [List.mem_singleton] at he2
          subst he2
          exact ⟨hprevnep, List.suffix_cons k prev⟩
      obtain ⟨b2, hnew2, hInv2, hsh2, hst2⟩ := ih b1 (T ++ [(k :: prev, false)])
        hallocInv hprevkeys hT1keys hprevne hT1fresh hT1dang
      rw [hnew2] at hcons
      -- chains: the chain for the child is the path followed by the parent's chain
      have hchain : missingChain (T.map Prod.fst) (k :: prev)
          = (k :: prev) :: missingChain (T.map Prod.fst) prev := by
        rw [missingChain, if_neg (by push_neg; exact ⟨hprevne, hprevfresh⟩)]
      have hchainsnoc : missingChain ((T ++ [(k :: prev, false)]).map Prod.fst) prev
          = missingChain (T.map Prod.fst) prev := by
        rw [show (T ++ [(k :: prev, false)]).map Prod.fst
          = T.map Prod.fst ++ [k :: prev] from by simp]
        apply missingChain_snoc
        intro q hq _ hc
        subst hc
        have := List.IsSuffix.length_le hq
        simp at this
      rw [hchainsnoc] at hInv2
      -- the registry after the recursive call, reassociated
      have hreassoc : (T ++ [(k :: prev, false)])
            ++ (missingChain (T.map Prod.fst) prev).map (fun r => (r, true))
          = T ++ (k :: prev, false)
            :: (missingChain (T.map Prod.fst) prev).map (fun r => (r, true)) := by
        simp
      rw [hreassoc] at hInv2
      -- the parent's entry sits right after the new path's entry
      have hprevhead : ∃ rest, missingChain (T.map Prod.fst) prev = prev :: rest := by
        cases prev with
        | nil => exact absurd rfl hprevne
        | cons k2 p2 => exact ⟨_, rfl⟩
      obtain ⟨chainrest, hchainhead⟩ := hprevhead
      have hm : (T ++ [(k :: prev, false)]).length = T.length + 1 := by simp
      rw [hm, hblen] at hcons
      have hPlen : (T.map Prod.fst).length = T.length := List.length_map _ _
      have hPfull : (T ++ (k :: prev, false)
            :: (missingChain (T.map Prod.fst) prev).map (fun r => (r, true))).map Prod.fst
          = T.map Prod.fst ++ (k :: prev) :: missingChain (T.map Prod.fst) prev := by
        simp [map_fst_pair_true]
      have hpid : ((k :: prev).tail = [] ∧ T.length + 1 + 1 = 0)
          ∨ (∃ j2, ((T ++ (k :: prev, false)
                :: (missingChain (T.map Prod.fst) prev).map (fun r => (r, true))).map
                  Prod.fst)[j2]? = some (k :: prev).tail
              ∧ T.length + 1 + 1 = j2 + 1) := by
        refine Or.inr ⟨T.length + 1, ?_, rfl⟩
        rw [hPfull, hchainhead]
        rw [List.getElem?_append_right (by omega)]
        have hsub : T.length + 1 - (T.map Prod.fst).length = 1 := by
          rw [hPlen]
          omega
        rw [hsub]
        simp
      have hnoT2 : ∀ e ∈ (missingChain (T.map Prod.fst) prev).map (fun r => (r, true)),
          ¬(e.2 = true ∧ e.1.tail? = some (k :: prev).tail) := by
        rintro e he ⟨_, ht⟩
        obtain ⟨r, hr, rfl⟩ := List.mem_map.mp he
        obtain ⟨htl, hrne⟩ := tail?_some_elim r prev ht
        obtain ⟨_, hsfx⟩ := missingChain_sub (T.map Prod.fst) prev r hr
        have hlen1 : r.length ≤ prev.length := List.IsSuffix.length_le hsfx
        have hlen2 : r.length = prev.length + 1 := by
          cases r with
          | nil => exact absurd rfl hrne
          | cons a r2 =>
            have : r2 = prev := htl
            simp [this]
        omega
      have hlink := InvT_link b2 T
        ((missingChain (T.map Prod.fst) prev).map (fun r => (r, true)))
        (k :: prev) (T.length + 1 + 1) hInv2 (by simp) hpid hnoT2
      refine ⟨_, hcons, ?_, ?_, ?_⟩
      · rw [hchain]
        simp only [List.map_cons]
        exact hlink
      · exact hsh2
      · exact hst2

theorem all_true_eta (T2 : List Entry) (h : ∀ e ∈ T2, e.2 = true) :
    T2 = (T2.map Prod.fst).map (fun r => (r, true)) := by
  induction T2 with
  | nil => rfl
  | cons e t ih =>
    obtain ⟨a, bo⟩ := e
    have hb : bo = true := h (a, bo) (by simp)
    subst hb
    rw [List.map_cons, List.map_cons,
      ← ih (fun x hx => h x (List.mem_cons_of_mem _ hx))]

theorem fold_spec (U : List PathKey) (hU1 : ∀ k2 ∈ U, goodKey k2)
    (hU2 : ∀ k2 ∈ U, ∀ k3 ∈ U, pathKeyString k2 = pathKeyString k3 → k2 = k3) :
    ∀ (qs : List ResponsePath) (b : Builder) (T : List Entry) (o : Nat),
    InvT b T →
    b.startHrTime = some o →
    b.stopped = false →
    (∀ e ∈ T, e.2 = true) →
    (∀ q ∈ T.map Prod.fst, ∀ k2 ∈ q, k2 ∈ U) →
    (∀ p ∈ qs, ∀ k2 ∈ p, k2 ∈ U) →
    (∀ p ∈ qs, p ≠ []) →
    (∀ p ∈ qs, p ∉ T.map Prod.fst) →
    qs.Pairwise (fun earlier later => ¬ later <:+ earlier) →
    ∃ T2 : List Entry,
      InvT (qs.foldl (fun bb p => (willResolveField bb p "T" "P" 0).1) b) T2
      ∧ (∀ e ∈ T2, e.2 = true)
      ∧ (∀ q ∈ T2.map Prod.fst, ∀ k2 ∈ q, k2 ∈ U)
      ∧ (∀ q, q ∈ T2.map Prod.fst
          ↔ (q ∈ T.map Prod.fst ∨ (q ≠ [] ∧ ∃ s ∈ qs, q <:+ s))) := by
  intro qs
  induction qs with
  | nil =>
    intro b T _ hInv _ _ hlinked hTkeys _ _ _ _
    refine ⟨T, hInv, hlinked, hTkeys, ?_⟩
    intro q
    constructor
    · exact Or.inl
    · rintro (h | ⟨_, s, hs, _⟩)
      · exact h
      · simp at hs
  | cons p rest ih =>
    intro b T o hInv hstart hstop hlinked hTkeys hqskeys hqsne hqsfresh hpair
    obtain ⟨hphead, hptail⟩ := List.pairwise_cons.mp hpair
    obtain ⟨b2, hnn, hInv2, hsh, hst⟩ := newNode_spec U hU1 hU2 p b T hInv
      (hqskeys p (by simp)) hTkeys (hqsne p (by simp)) (hqsfresh p (by simp))
      (fun e he h2 => absurd h2 (by rw [hlinked e he]; simp))
    have hwrf : willResolveField b p "T" "P" 0
        = ({ b2 with arena := modifyAt b2.arena (T.length + 1) (fun n => { n with type := "T", parentType := "P", startTime := 0 - o }) },
           .ok (T.length + 1)) := by
      rw [willResolveField, hstart]
      simp only [hstop, Bool.false_eq_true, if_false]
      rw [hnn]
    have hPmap2 : (T ++ (missingChain (T.map Prod.fst) p).map (fun r => (r, true))).map Prod.fst
        = T.map Prod.fst ++ missingChain (T.map Prod.fst) p := by
      simp [map_fst_pair_true]
    have hInv3 := InvT_modify_preserve b2 _ hInv2 (T.length + 1)
      (fun n => { n with type := "T", parentType := "P", startTime := 0 - o })
      (fun nd => ⟨rfl, rfl, rfl⟩)
    have hstep := ih
      ({ b2 with arena := modifyAt b2.arena (T.length + 1) (fun n => { n with type := "T", parentType := "P", startTime := 0 - o }) })
      (T ++ (missingChain (T.map Prod.fst) p).map (fun r => (r, true))) o
      hInv3
      (by show b2.startHrTime = some o; rw [hsh]; exact hstart)
      (by show b2.stopped = false; rw [hst]; exact hstop)
      (by
        intro e he
        rcases List.mem_append.mp he with h | h
        · exact hlinked e h
        · obtain ⟨r, _, rfl⟩ := List.mem_map.mp h
          rfl)
      (by
        intro q hq
        rw [hPmap2] at hq
        rcases List.mem_append.mp hq with h | h
        · exact hTkeys q h
        · obtain ⟨_, hsfx⟩ := missingChain_sub (T.map Prod.fst) p q h
          intro k2 hk2
          exact hqskeys p (by simp) k2 (hsfx.subset hk2))
      (fun r hr => hqskeys r (List.mem_cons_of_mem _ hr))
      (fun r hr => hqsne r (List.mem_cons_of_mem _ hr))
      (by
        intro r hr
        rw [hPmap2]
        intro hc
        rcases List.mem_append.mp hc with h | h
        · exact hqsfresh r (List.mem_cons_of_mem _ hr) h
        · obtain ⟨_, hsfx⟩ := missingChain_sub (T.map Prod.fst) p r h
          exact hphead r hr hsfx)
      hptail
    obtain ⟨T2, hI, hl, hk, hmem⟩ := hstep
    refine ⟨T2, ?_, hl, hk, ?_⟩
    · simp only [List.foldl_cons]
      rw [hwrf]
      exact hI
    · intro q
      rw [hmem q, hPmap2]
      constructor
      · rintro (h | ⟨hne2, s, hs, hsfx⟩)
        · rcases List.mem_append.mp h with h2 | h2
          · exact Or.inl h2
          · obtain ⟨hne2, hsfx⟩ := missingChain_sub (T.map Prod.fst) p q h2
            exact Or.inr ⟨hne2, p, by simp, hsfx⟩
        · exact Or.inr ⟨hne2, s, List.mem_cons_of_mem _ hs, hsfx⟩
      · rintro (h | ⟨hne2, s, hs, hsfx⟩)
        · exact Or.inl (List.mem_append.mpr (Or.inl h))
        · rcases List.mem_cons.mp hs with rfl | hs2
          · have hclosed : ∀ t ∈ T.map Prod.fst, ∀ u, u ≠ [] → u <:+ t →
                u ∈ T.map Prod.fst := by
              apply suffix_closed_of_tail_closed
              intro t ht
              obtain ⟨e, he, rfl⟩ := List.mem_map.mp ht
              exact hInv.linkedTail e he (hlinked e he)
            rcases missingChain_cover (T.map Prod.fst) hclosed s q hne2 hsfx with h2 | h2
            · exact Or.inl (List.mem_append.mpr (Or.inl h2))
            · exact Or.inl (List.mem_append.mpr (Or.inr h2))
          · exact Or.inr ⟨hne2, s, hs2, hsfx⟩

/-- C2 (amended): for a sequence of field-start events on a fresh started
builder whose paths are distinct, nonempty, built from unambiguous dot-free
segment labels (as all GraphQL field names and list indices are), and in
which no started path is a proper ancestor of an earlier-started one, the
resulting node tree is isomorphic to the prefix-closure tree T of the
started paths: the registry `T` below enumerates exactly the nonempty
suffix-closure of the started paths (one node per path, `arena.length =
T.length + 1` making the correspondence bijective), each node carries the
segment identity of its path's last segment (`fieldName` for a string,
`index` for a number), and each node's child list is exactly the ids of the
paths that extend its own path by one segment, in creation order — in
particular each created node is a child of the node of its path's parent,
with missing ancestors created on demand below the pre-existing root. -/
theorem c2_amended (ps : List ResponsePath) (t0 : Nat)
    (hne : ∀ p ∈ ps, p ≠ [])
    (hkeys : ∀ p ∈ ps, ∀ k2 ∈ p, goodKey k2)
    (hunamb : ∀ p ∈ ps, ∀ q ∈ ps, ∀ k2 ∈ p, ∀ k3 ∈ q,
      pathKeyString k2 = pathKeyString k3 → k2 = k3)
    (horder : ps.Pairwise (fun earlier later => ¬ later <:+ earlier)) :
    ∃ T : List ResponsePath,
      (∀ q, q ∈ T ↔ (q ≠ [] ∧ ∃ s ∈ ps, q <:+ s))
      ∧ T.Nodup
      ∧ (runFields t0 ps).arena.length = T.length + 1
      ∧ (∀ i q, T[i]? = some q → ∃ nd, (runFields t0 ps).arena[i + 1]? = some nd
          ∧ segMatches nd q
          ∧ nd.child = childIds (T.map (fun r => (r, true))) q)
      ∧ (∃ nd, (runFields t0 ps).arena[0]? = some nd
          ∧ nd.child = childIds (T.map (fun r => (r, true))) []) := by
  have hInv0 : InvT ({ startHrTime := some t0 } : Builder) [] := by
    refine ⟨rfl, ?_, ?_, ?_, ?_, ?_, ?_, ?_, ?_⟩
    · rw [alookup, if_pos rfl]
    · intro i q hq; simp at hq
    · intro s hs _
      rw [alookup, if_neg (fun hc => hs hc.symm), alookup]
    · intro i q hq; simp at hq
    · exact ⟨{}, rfl, rfl⟩
    · intro q hq; simp at hq
    · simp
    · intro e he; simp at he
  obtain ⟨T2, hI, hlinked, _, hmem⟩ := fold_spec ps.flatten
    (fun k2 hk2 => by
      obtain ⟨p, hp, hkp⟩ := List.mem_flatten.mp hk2
      exact hkeys p hp k2 hkp)
    (fun k2 hk2 k3 hk3 => by
      obtain ⟨p, hp, hkp⟩ := List.mem_flatten.mp hk2
      obtain ⟨q, hq, hkq⟩ := List.mem_flatten.mp hk3
      exact hunamb p hp q hq k2 hkp k3 hkq)
    ps ({ startHrTime := some t0 } : Builder) [] t0 hInv0 rfl rfl
    (by intro e he; simp at he)
    (by intro q hq; simp at hq)
    (fun p hp k2 hk2 => List.mem_flatten.mpr ⟨p, hp, hk2⟩)
    hne
    (by intro p hp; simp)
    horder
  have hrun : runFields t0 ps
      = ps.foldl (fun bb p => (willResolveField bb p "T" "P" 0).1)
          ({ startHrTime := some t0 } : Builder) := rfl
  refine ⟨T2.map Prod.fst, ?_, hI.pathsNodup, ?_, ?_, ?_⟩
  · intro q
    rw [hmem q]
    constructor
    · rintro (h | h)
      · simp at h
      · exact h
    · exact Or.inr
  · rw [hrun, hI.arenaLen, List.length_map]
  · intro i q hq
    obtain ⟨nd, hnd, hseg, hch⟩ := hI.nodeSpec i q hq
    rw [hrun]
    refine ⟨nd, hnd, hseg, ?_⟩
    rw [← all_true_eta T2 hlinked]
    exact hch
  · obtain ⟨nd, hnd, hch⟩ := hI.rootSpec
    rw [hrun]
    exact ⟨nd, hnd, by rw [← all_true_eta T2 hlinked]; exact hch⟩

/-- C2 (amended) witness: four concrete events a, a.b, a.b.0 and c, arriving
parents-first. -/
theorem c2_amended_witness :
    ∃ T : List ResponsePath,
      (∀ q, q ∈ T ↔ (q ≠ [] ∧ ∃ s ∈ ([[PathKey.fieldName "a"],
          [PathKey.fieldName "b", PathKey.fieldName "a"],
          [PathKey.index 0, PathKey.fieldName "b", PathKey.fieldName "a"],
          [PathKey.fieldName "c"]] : List ResponsePath), q <:+ s))
      ∧ T.Nodup
      ∧ (runFields 7 [[PathKey.fieldName "a"],
          [PathKey.fieldName "b", PathKey.fieldName "a"],
          [PathKey.index 0, PathKey.fieldName "b", PathKey.fieldName "a"],
          [PathKey.fieldName "c"]]).arena.length = T.length + 1
      ∧ (∀ i q, T[i]? = some q → ∃ nd, (runFields 7 [[PathKey.fieldName "a"],
          [PathKey.fieldName "b", PathKey.fieldName "a"],
          [PathKey.index 0, PathKey.fieldName "b", PathKey.fieldName "a"],
          [PathKey.fieldName "c"]]).arena[i + 1]? = some nd
          ∧ segMatches nd q
          ∧ nd.child = childIds (T.map (fun r => (r, true))) q)
      ∧ (∃ nd, (runFields 7 [[PathKey.fieldName "a"],
          [PathKey.fieldName "b", PathKey.fieldName "a"],
          [PathKey.index 0, PathKey.fieldName "b", PathKey.fieldName "a"],
          [PathKey.fieldName "c"]]).arena[0]? = some nd
          ∧ nd.child = childIds (T.map (fun r => (r, true))) []) :=
  c2_amended [[PathKey.fieldName "a"],
      [PathKey.fieldName "b", PathKey.fieldName "a"],
      [PathKey.index 0, PathKey.fieldName "b", PathKey.fieldName "a"],
      [PathKey.fieldName "c"]] 7
    (by decide) (by decide) (by decide) (by decide)
